import Mathlib

/-!
Verification of the Power-Platform web-resource sync utility.

The repository consists of three Node scripts sharing a persisted mapping
store (`webresource-mapping.json`):
  * a sync reconciler (`syncWebResources` in the sync script) that copies
    compiled `.js` artifacts from `./dist` into mapped asset folders,
  * an interactive creation flow (`createNewWebResource`),
  * a descriptor scanner (`getWebResourceInfo`).

Strings are modelled as `List Char`; the filesystem is modelled explicitly
(the discovered artifact list, the list of existing asset folders with their
files, and the mapping file content).  Every definition is translated from
the JavaScript source; JavaScript built-ins that the source calls
(`String.prototype.replace` with a string pattern, `String.prototype.trim`,
`RegExp.prototype.test`/`String.prototype.match`, `JSON.stringify`/
`JSON.parse` restricted to the flat string-to-string objects that occur
here) are modelled faithfully to their ECMAScript semantics.
-/

namespace PPJC

/-- Strings are modelled as lists of characters. -/
abbrev Str := List Char

/-- Convert a Lean string literal to the `Str` model. -/
def str (s : String) : Str := s.toList

/-- `startsW pat s` holds when `pat` is an initial segment of `s`. -/
def startsW : Str → Str → Bool
  | [], _ => true
  | _ :: _, [] => false
  | p :: ps, c :: cs => p == c && startsW ps cs

/-- `occursB pat s`: the literal `pat` occurs as a contiguous substring of `s`. -/
def occursB (pat : Str) : Str → Bool
  | [] => startsW pat []
  | c :: cs => startsW pat (c :: cs) || occursB pat cs

/-- `endsW pat s` holds when `pat` is a final segment of `s`. -/
def endsW (pat s : Str) : Bool := startsW pat.reverse s.reverse

/-- JavaScript `s.replace(pat, rep)` with a string `pat`: replaces only the
first occurrence of `pat` (the string is returned unchanged when `pat` does
not occur). -/
def replaceFirst (pat rep : Str) : Str → Str
  | [] => if startsW pat [] then rep else []
  | c :: cs =>
    if startsW pat (c :: cs) then rep ++ (c :: cs).drop pat.length
    else c :: replaceFirst pat rep cs

/-- The reconciler's key derivation (`syncWebResources` line 129 and
`syncFile` line 78): `relativePath.replace('.js', '.ts')`. -/
def tsKeyOf (rel : Str) : Str := replaceFirst (str ".js") (str ".ts") rel

/-- The JavaScript whitespace set used by `String.prototype.trim` and by the
`\s` regex class (WhiteSpace plus LineTerminator code points). -/
def isJsSpace (c : Char) : Bool :=
  decide (c.toNat = 9 ∨ c.toNat = 10 ∨ c.toNat = 11 ∨ c.toNat = 12 ∨ c.toNat = 13 ∨
    c.toNat = 32 ∨ c.toNat = 160 ∨ c.toNat = 5760 ∨
    (8192 ≤ c.toNat ∧ c.toNat ≤ 8202) ∨ c.toNat = 8232 ∨ c.toNat = 8233 ∨
    c.toNat = 8239 ∨ c.toNat = 8287 ∨ c.toNat = 12288 ∨ c.toNat = 65279)

/-- ECMAScript LineTerminator code points (what `.` in a regex refuses). -/
def isLineTerm (c : Char) : Bool :=
  decide (c.toNat = 10 ∨ c.toNat = 13 ∨ c.toNat = 8232 ∨ c.toNat = 8233)

/-- JavaScript `s.trim()`. -/
def jsTrim (s : Str) : Str :=
  (((s.dropWhile isJsSpace).reverse.dropWhile isJsSpace)).reverse

/-- The character class `[a-zA-Z0-9_-]` of the creation flow's validator. -/
def allowedChar (c : Char) : Bool :=
  decide ((65 ≤ c.toNat ∧ c.toNat ≤ 90) ∨ (97 ≤ c.toNat ∧ c.toNat ≤ 122) ∨
    (48 ≤ c.toNat ∧ c.toNat ≤ 57) ∨ c.toNat = 95 ∨ c.toNat = 45)

/-- `/^[a-zA-Z0-9_-]+$/.test s`. -/
def regexAllowed (s : Str) : Bool := !s.isEmpty && s.all allowedChar

/-- The `tsFileName` validator of `createNewWebResource` (creation script
lines 184-192): reject when the input is falsy or trims to the empty string,
reject when the trimmed input fails `/^[a-zA-Z0-9_-]+$/`, accept otherwise. -/
def validateNewName (input : Str) : Bool :=
  if input.isEmpty || (jsTrim input).isEmpty then false
  else regexAllowed (jsTrim input)

/-! ### The descriptor scanner (`getWebResourceInfo`)

The source matches `content` against the three regexes `/Name:\s*(.+)/`,
`/DisplayName:\s*(.+)/` and `/FileName:\s*(.+)/` independently, taking the
first capture and `.trim()`-ing it; a field whose regex does not match is
`null`, and an absent `webresource.yml` makes the whole result `null`. -/

/-- The run of non-LineTerminator characters matched by `(.+)`. -/
def takeNonTerm (l : Str) : Str := l.takeWhile (fun c => !isLineTerm c)

/-- Match `\s*(.+)` against `l` with the regex engine's greedy backtracking:
`\s*` consumes as many whitespace characters as possible, backing off until
`(.+)` can match at least one non-LineTerminator character; the returned
group is the maximal run of non-LineTerminator characters from that point. -/
def matchTail : Str → Option Str
  | [] => none
  | c :: cs =>
    if isJsSpace c then
      match matchTail cs with
      | some g => some g
      | none => if isLineTerm c then none else some (takeNonTerm (c :: cs))
    else some (takeNonTerm (c :: cs))

/-- Try the regex `lit\s*(.+)` anchored at the start of `s`. -/
def tryAt (pat s : Str) : Option Str :=
  if startsW pat s then matchTail (s.drop pat.length) else none

/-- `content.match(/lit\s*(.+)/)`: scan start positions left to right and
return the first position's capture group where the whole regex matches. -/
def findMatch (pat : Str) : Str → Option Str
  | [] => tryAt pat []
  | c :: cs =>
    match tryAt pat (c :: cs) with
    | some g => some g
    | none => findMatch pat cs

/-- The record assembled by `getWebResourceInfo` (sync script lines 66-71). -/
structure AssetInfo where
  dir : Str
  name : Option Str
  displayName : Option Str
  fileName : Option Str
deriving DecidableEq

/-- `getWebResourceInfo` (sync script lines 55-72): `none` when the folder's
`webresource.yml` is absent; otherwise each of the three fields is the
trimmed first capture of its own pattern search, or `null` when the pattern
does not match. -/
def getWebResourceInfo (d : Str) (yml : Option Str) : Option AssetInfo :=
  match yml with
  | none => none
  | some content =>
    some (AssetInfo.mk d
      ((findMatch (str "Name:") content).map jsTrim)
      ((findMatch (str "DisplayName:") content).map jsTrim)
      ((findMatch (str "FileName:") content).map jsTrim))

/-! ### The mapping store (`loadMapping` / `saveMapping`)

The store is a flat JSON object from source-file names to folder names.
`saveMapping` writes `JSON.stringify(mapping, null, 2)`; `loadMapping`
reads the file and `JSON.parse`s it (absent file: empty table; parse error:
report and empty table).  `JSON.stringify` and `JSON.parse` are modelled
for the values that occur here: flat objects whose keys and values are
strings, with full ECMAScript string escaping, two-space pretty printing,
and last-wins duplicate-key semantics on parse. -/

/-- The in-memory mapping object: an association list with unique keys in
insertion order (the JavaScript object model). -/
abbrev Entries := List (Str × Str)

/-- First-match association lookup (`mapping[k]`). -/
def lookupKey : Entries → Str → Option Str
  | [], _ => none
  | (k', v') :: rest, k => if k' = k then some v' else lookupKey rest k

/-- JavaScript property assignment `mapping[k] = v`: overwrite in place when
the key exists, append otherwise. -/
def setKey : Entries → Str → Str → Entries
  | [], k, v => [(k, v)]
  | (k', v') :: rest, k, v =>
    if k' = k then (k, v) :: rest else (k', v') :: setKey rest k v

/-- JavaScript `delete mapping[k]`. -/
def delKey (m : Entries) (k : Str) : Entries :=
  m.filter (fun kv => !(decide (kv.1 = k)))

/-- The key list of a mapping table. -/
def keysOf (m : Entries) : List Str := m.map Prod.fst

/-- Lowercase hex digit, as emitted by `JSON.stringify`'s `\u00xx` escapes. -/
def hexDigitChar (n : Nat) : Char :=
  if n < 10 then Char.ofNat (48 + n) else Char.ofNat (87 + n)

/-- Hex digit value, as accepted by `JSON.parse`. -/
def hexVal (c : Char) : Option Nat :=
  if 48 ≤ c.toNat ∧ c.toNat ≤ 57 then some (c.toNat - 48)
  else if 97 ≤ c.toNat ∧ c.toNat ≤ 102 then some (c.toNat - 87)
  else if 65 ≤ c.toNat ∧ c.toNat ≤ 70 then some (c.toNat - 55)
  else none

/-- ECMAScript `QuoteJSONString` escaping of one character. -/
def escapeChar (c : Char) : Str :=
  if c = '"' then ['\\', '"']
  else if c = '\\' then ['\\', '\\']
  else if c = '\n' then ['\\', 'n']
  else if c = '\r' then ['\\', 'r']
  else if c = '\t' then ['\\', 't']
  else if c = '\x08' then ['\\', 'b']
  else if c = '\x0c' then ['\\', 'f']
  else if c.toNat < 32 then
    ['\\', 'u', '0', '0', hexDigitChar (c.toNat / 16), hexDigitChar (c.toNat % 16)]
  else [c]

/-- Escape a whole string (without the surrounding quotes). -/
def escapeStr : Str → Str
  | [] => []
  | c :: cs => escapeChar c ++ escapeStr cs

/-- `JSON.parse` string body: consume characters after an opening quote up
to the matching unescaped closing quote, decoding escapes; raw control
characters are a parse error.  Returns the decoded string and the rest of
the input after the closing quote. -/
def parseJsonString : Str → Option (Str × Str)
  | [] => none
  | c :: cs =>
    if c = '"' then some ([], cs)
    else if c = '\\' then
      match cs with
      | [] => none
      | e :: r =>
        if e = '"' then (parseJsonString r).map (fun p => ('"' :: p.1, p.2))
        else if e = '\\' then (parseJsonString r).map (fun p => ('\\' :: p.1, p.2))
        else if e = '/' then (parseJsonString r).map (fun p => ('/' :: p.1, p.2))
        else if e = 'n' then (parseJsonString r).map (fun p => ('\n' :: p.1, p.2))
        else if e = 'r' then (parseJsonString r).map (fun p => ('\r' :: p.1, p.2))
        else if e = 't' then (parseJsonString r).map (fun p => ('\t' :: p.1, p.2))
        else if e = 'b' then (parseJsonString r).map (fun p => ('\x08' :: p.1, p.2))
        else if e = 'f' then (parseJsonString r).map (fun p => ('\x0c' :: p.1, p.2))
        else if e = 'u' then
          match r with
          | h1 :: h2 :: h3 :: h4 :: r2 =>
            match hexVal h1, hexVal h2, hexVal h3, hexVal h4 with
            | some a, some b, some c2, some d2 =>
              let n := 4096 * a + 256 * b + 16 * c2 + d2
              if n.isValidChar then
                (parseJsonString r2).map (fun p => (Char.ofNat n :: p.1, p.2))
              else none
            | _, _, _, _ => none
          | _ => none
        else none
    else if c.toNat < 32 then none
    else (parseJsonString cs).map (fun p => (c :: p.1, p.2))

/-- JSON insignificant whitespace. -/
def skipWs : Str → Str
  | [] => []
  | c :: cs =>
    if c = ' ' ∨ c = '\t' ∨ c = '\n' ∨ c = '\r' then skipWs cs else c :: cs

/-- One pretty-printed entry line (two-space indent): `  "k": "v"`. -/
def entryStr (kv : Str × Str) : Str :=
  ' ' :: ' ' :: '"' ::
    (escapeStr kv.1 ++ '"' :: ':' :: ' ' :: '"' :: (escapeStr kv.2 ++ ['"']))

/-- The entry lines joined by `,\n`, closed by `\n}`. -/
def entriesStr : Entries → Str
  | [] => []
  | [kv] => entryStr kv ++ ['\n', '\x7d']
  | kv :: rest => entryStr kv ++ ',' :: '\n' :: entriesStr rest

/-- `JSON.stringify(mapping, null, 2)` for a flat string-valued object. -/
def stringifyMapping (m : Entries) : Str :=
  match m with
  | [] => ['\x7b', '\x7d']
  | _ => '\x7b' :: '\n' :: entriesStr m

/-- One member of a flat string-valued JSON object: `"k" : "v"` followed by
either a comma (parse the remaining members via `rec`) or the closing
brace (then only trailing whitespace may remain). -/
def parseEntriesStep (rec : Str → Option Entries) (s : Str) : Option Entries :=
  match skipWs s with
  | [] => none
  | c1 :: r1 =>
    if c1 = '"' then
      match parseJsonString r1 with
      | none => none
      | some (k, r2) =>
        match skipWs r2 with
        | [] => none
        | c3 :: r3 =>
          if c3 = ':' then
            match skipWs r3 with
            | [] => none
            | c4 :: r4 =>
              if c4 = '"' then
                match parseJsonString r4 with
                | none => none
                | some (v, r5) =>
                  match skipWs r5 with
                  | [] => none
                  | c6 :: r6 =>
                    if c6 = ',' then (rec r6).map (fun es => (k, v) :: es)
                    else if c6 = '\x7d' then
                      if skipWs r6 = [] then some [(k, v)] else none
                    else none
              else none
          else none
    else none

/-- Parse the member list of a flat string-valued JSON object, starting
right after the opening brace; fuelled by the input length (each member
consumes at least one character). -/
def parseEntriesAux : Nat → Str → Option Entries
  | 0, _ => none
  | fuel + 1, s => parseEntriesStep (parseEntriesAux fuel) s

/-- `JSON.parse` restricted to a single flat object whose member values are
strings (the only shape the mapping file ever holds); any other content is
a parse error. -/
def parseMappingJson (s : Str) : Option Entries :=
  match skipWs s with
  | [] => none
  | c :: r =>
    if c = '\x7b' then
      match skipWs r with
      | [] => none
      | c2 :: r2 =>
        if c2 = '\x7d' then (if skipWs r2 = [] then some [] else none)
        else parseEntriesAux (r.length + 1) r
    else none

/-- Building the JavaScript object from parsed members: later duplicate
keys overwrite earlier ones in place (`JSON.parse` object semantics). -/
def jsonToObject (es : Entries) : Entries :=
  es.foldl (fun m kv => setKey m kv.1 kv.2) []

/-- What `loadMapping` reports on the console. -/
inductive LoadEvent where
  | noConfig
  | readError
deriving DecidableEq

/-- `loadMapping` (sync script lines 13-26): missing file yields the empty
table (after a notice); unparsable content yields a reported error and the
empty table; otherwise the parsed table.  Never throws to the caller. -/
def loadMapping (file : Option Str) : Entries × Option LoadEvent :=
  match file with
  | none => ([], some LoadEvent.noConfig)
  | some content =>
    match parseMappingJson content with
    | some es => (jsonToObject es, none)
    | none => ([], some LoadEvent.readError)

/-- `saveMapping` (sync script lines 29-31): the full serialized table,
overwriting the backing file. -/
def saveMapping (m : Entries) : Str := stringifyMapping m

/-! ### The sync reconciler (`syncWebResources` / `syncFile`)

The filesystem state visible to the reconciler: the list of compiled
artifacts discovered by `glob.sync('./dist/**/*.js')` (build-relative path
and content, in discovery order) and the list of existing asset folders
under `./src/webresources` (name plus contained files with their
contents).  `fs.copyFileSync` may throw for any given copy; that
environment behaviour is an oracle parameter `CopyOracle`. -/

/-- One asset folder: its directory name and its files `(name, content)`. -/
structure Folder where
  name : Str
  files : List (Str × Str)
deriving DecidableEq

/-- The filesystem state the reconciler reads. -/
structure FS where
  dist : List (Str × Str)
  folders : List Folder
deriving DecidableEq

/-- Decides which `copyFileSync` calls throw: arguments are the artifact's
build-relative path, the target folder name and the target file name. -/
abbrev CopyOracle := Str → Str → Str → Bool

def folderNames (fl : List Folder) : List Str := fl.map Folder.name

/-- `fs.existsSync(targetDir)` plus reading the folder, as one lookup. -/
def findFolder (fl : List Folder) (d : Str) : Option Folder :=
  fl.find? (fun fo => decide (fo.name = d))

def fileNames (fo : Folder) : List Str := fo.files.map Prod.fst

/-- `fs.readdirSync(targetDir).filter(f => f.endsWith('.js'))`. -/
def jsFileNames (fo : Folder) : List Str :=
  (fileNames fo).filter (fun n => endsW (str ".js") n)

/-- `fs.copyFileSync(src, target)`: overwrite the named file's content. -/
def setContent (files : List (Str × Str)) (n c : Str) : List (Str × Str) :=
  files.map (fun f => if f.1 = n then (n, c) else f)

def updateFolder (fl : List Folder) (d n c : Str) : List Folder :=
  fl.map (fun fo => if fo.name = d then Folder.mk fo.name (setContent fo.files n c) else fo)

/-- Folder structure without contents: names and file-name lists. -/
def shape (fl : List Folder) : List (Str × List Str) :=
  fl.map (fun fo => (fo.name, fileNames fo))

/-- `jsFileNames` of the folder `findFolder` resolves, when it exists. -/
def jsNamesAt (fl : List Folder) (d : Str) : Option (List Str) :=
  (findFolder fl d).map jsFileNames

/-- The console line each loop iteration of `syncWebResources` emits for
its artifact (the data identifying the message, not its formatting). -/
inductive SyncEvent where
  | synced (key dir file : Str)
  | copyFailed (key dir : Str)
  | noJsFiles (key dir : Str)
  | dirMissing (key dir : Str)
  | unmapped (key : Str)
deriving DecidableEq

/-- Result of `syncFile`. -/
structure FileResult where
  ok : Bool
  folders : List Folder
  mapping : Entries
  event : SyncEvent
deriving DecidableEq

/-- `syncFile` (sync script lines 75-103): list the `.js` files of the
target folder (warn and return `false` when there are none), copy the
artifact's bytes onto the FIRST such file, record
`mapping[tsFileName] = webResourceDir`, return `true`; a thrown copy is
caught, reported and yields `false` with nothing changed. -/
def syncFile (src : Str × Str) (fo : Folder) (fl : List Folder) (m : Entries)
    (fail : CopyOracle) : FileResult :=
  let key := tsKeyOf src.1
  match jsFileNames fo with
  | [] => FileResult.mk false fl m (SyncEvent.noJsFiles key fo.name)
  | t :: _ =>
    if fail src.1 fo.name t then
      FileResult.mk false fl m (SyncEvent.copyFailed key fo.name)
    else
      FileResult.mk true (updateFolder fl fo.name t src.2) (setKey m key fo.name)
        (SyncEvent.synced key fo.name t)

/-- Result of one loop iteration of `syncWebResources`. -/
structure StepResult where
  folders : List Folder
  mapping : Entries
  add : Nat
  event : SyncEvent
deriving DecidableEq

/-- One iteration of the `syncWebResources` loop (lines 127-147): derive the
key, look it up; unmapped keys are warned and skipped; a mapped but missing
target folder is warned and its entry deleted; otherwise `syncFile` runs and
a success bumps the counter. -/
def syncStep (fl : List Folder) (m : Entries) (fail : CopyOracle)
    (src : Str × Str) : StepResult :=
  let key := tsKeyOf src.1
  match lookupKey m key with
  | some dir =>
    match findFolder fl dir with
    | some fo =>
      let r := syncFile src fo fl m fail
      StepResult.mk r.folders r.mapping (if r.ok then 1 else 0) r.event
    | none => StepResult.mk fl (delKey m key) 0 (SyncEvent.dirMissing key dir)
  | none => StepResult.mk fl m 0 (SyncEvent.unmapped key)

/-- Result of the whole artifact loop. -/
structure LoopResult where
  folders : List Folder
  mapping : Entries
  count : Nat
  events : List SyncEvent
deriving DecidableEq

/-- The `for (const compiledFile of compiledFiles)` loop of
`syncWebResources`, over the discovered artifacts in order. -/
def syncLoop (fail : CopyOracle) :
    List (Str × Str) → List Folder → Entries → LoopResult
  | [], fl, m => LoopResult.mk fl m 0 []
  | src :: rest, fl, m =>
    let s := syncStep fl m fail src
    let r := syncLoop fail rest s.folders s.mapping
    LoopResult.mk r.folders r.mapping (s.add + r.count) (s.event :: r.events)

/-- Result of a whole reconciler run. -/
structure RunResult where
  fs : FS
  mappingFile : Option Str
  syncCount : Nat
  events : List SyncEvent
deriving DecidableEq

/-- `syncWebResources` (sync script lines 106-157): load the mapping, list
the compiled artifacts, return early (without saving) when there are none,
run the loop, persist the possibly pruned mapping, report the count. -/
def syncWebResources (fs : FS) (mfile : Option Str) (fail : CopyOracle) :
    RunResult :=
  let m := (loadMapping mfile).1
  if fs.dist.isEmpty then RunResult.mk fs mfile 0 []
  else
    let r := syncLoop fail fs.dist fs.folders m
    RunResult.mk (FS.mk fs.dist r.folders) (some (saveMapping r.mapping)) r.count
      r.events

/-- The keys derived from the discovered artifacts. -/
def distKeys (dist : List (Str × Str)) : List Str :=
  dist.map (fun s => tsKeyOf s.1)

/-- An entry survives the run unless its key matches a discovered artifact
while its target folder is missing. -/
def keepB (dk : List Str) (fl : List Folder) (kv : Str × Str) : Bool :=
  !(decide (kv.1 ∈ dk) && (findFolder fl kv.2).isNone)

/-- Whether the loop's iteration for artifact `src` bumps the counter,
expressed against the initially loaded table. -/
def countsB (m : Entries) (fl : List Folder) (fail : CopyOracle)
    (src : Str × Str) : Bool :=
  match lookupKey m (tsKeyOf src.1) with
  | some d =>
    match jsNamesAt fl d with
    | some (t :: _) => !fail src.1 d t
    | _ => false
  | none => false

/-- The warning the reconciler emits when it prunes the entry `(k, d)`. -/
def refsEntry (k d : Str) (ev : SyncEvent) : Bool :=
  decide (ev = SyncEvent.dirMissing k d)

/-- Whether an event records a copy attempt (successful or failed) for the
entry with key `k`. -/
def isAttempt (k : Str) (ev : SyncEvent) : Bool :=
  match ev with
  | SyncEvent.synced k' _ _ => decide (k' = k)
  | SyncEvent.copyFailed k' _ => decide (k' = k)
  | _ => false

/-! ### Claim C4: running the reconciler twice -/

/-- An environment in which no copy throws. -/
def noFailOracle : CopyOracle := fun _ _ _ => false

/-- A state with one compiled artifact mapped to an existing folder that
holds one deployed `.js` file. -/
def cexFS : FS :=
  FS.mk [(str "widgetForm.js", str "compiled")]
    [Folder.mk (str "folder-123") [(str "widgetForm.js", str "deployed")]]

/-- The persisted mapping file for `cexFS`. -/
def cexMapFile : Option Str :=
  some (saveMapping [(str "widgetForm.ts", str "folder-123")])

/-! ### Basic lemmas about the string primitives -/

theorem startsW_self_append (l r : Str) : startsW l (l ++ r) = true := by
  induction l with
  | nil => rfl
  | cons c cs ih => simp [startsW, ih]

theorem endsW_append_self (s t : Str) : endsW t (s ++ t) = true := by
  simp only [endsW, List.reverse_append]
  exact startsW_self_append t.reverse s.reverse

/-- If `".js"` starts the string `l ++ ".js"` then either `l` is empty or
`".js"` already starts `l`: the pattern cannot straddle the boundary. -/
theorem startsW_js_append {l : Str}
    (h : startsW (str ".js") (l ++ str ".js") = true) :
    l = [] ∨ startsW (str ".js") l = true := by
  match l with
  | [] => exact Or.inl rfl
  | [a] =>
    exfalso
    simp only [str, List.cons_append, List.nil_append] at h
    simp [startsW, String.toList] at h
  | [a, b] =>
    exfalso
    simp only [str, List.cons_append, List.nil_append] at h
    simp [startsW, String.toList] at h
  | a :: b :: c :: l' =>
    right
    simp only [str, List.cons_append] at h ⊢
    simp [startsW, String.toList] at h ⊢
    tauto

theorem jsTrim_nil : jsTrim [] = [] := rfl

theorem allowedChar_not_space {c : Char} (h : allowedChar c = true) :
    isJsSpace c = false := by
  simp [allowedChar] at h
  simp [isJsSpace]
  omega

theorem dropWhile_eq_self_of_all {p : Char → Bool} {l : Str}
    (h : ∀ c ∈ l, p c = false) : l.dropWhile p = l := by
  cases l with
  | nil => rfl
  | cons c cs =>
    have hc : p c = false := h c (List.mem_cons_self c cs)
    simp [List.dropWhile, hc]

theorem jsTrim_of_allowed {s : Str} (h : s.all allowedChar = true) :
    jsTrim s = s := by
  have hall : ∀ c ∈ s, allowedChar c = true := by
    simpa [List.all_eq_true] using h
  have h1 : s.dropWhile isJsSpace = s :=
    dropWhile_eq_self_of_all (fun c hc => allowedChar_not_space (hall c hc))
  have h2 : s.reverse.dropWhile isJsSpace = s.reverse :=
    dropWhile_eq_self_of_all
      (fun c hc => allowedChar_not_space (hall c (List.mem_reverse.mp hc)))
  simp [jsTrim, h1, h2]

/-! ### Claim C1: artifact key derivation -/

/-- Claim C1 counterexample.  The artifact with build-relative path
`x.json.js` (a discovered `.js` artifact) gets the derived key
`x.tson.js`: the code replaces the FIRST occurrence of `.js`, not the
trailing one, so the derived key is neither the trailing replacement
`x.json.ts` nor does it end in `.ts`. -/
theorem c1_counterexample :
    endsW (str ".js") (str "x.json.js") = true ∧
    tsKeyOf (str "x.json.js") = str "x.tson.js" ∧
    tsKeyOf (str "x.json.js") ≠ str "x.json.ts" ∧
    endsW (str ".ts") (tsKeyOf (str "x.json.js")) = false := by
  refine ⟨by decide, by decide, by decide, by decide⟩

/-- Claim C1 (amended): the reconciler derives the mapping key by replacing
the FIRST occurrence of `.js` in the artifact's build-relative path with
`.ts`; when `.js` occurs nowhere in the path except as the trailing
extension, this coincides with substituting the trailing extension and the
derived key ends in `.ts`. -/
theorem c1_amended (s : Str) (h : occursB (str ".js") s = false) :
    tsKeyOf (s ++ str ".js") = s ++ str ".ts" ∧
    endsW (str ".ts") (tsKeyOf (s ++ str ".js")) = true := by
  have key : tsKeyOf (s ++ str ".js") = s ++ str ".ts" := by
    induction s with
    | nil => decide
    | cons c cs ih =>
      simp only [occursB, Bool.or_eq_false_iff] at h
      have hns : startsW (str ".js") (c :: (cs ++ str ".js")) = false := by
        rw [← List.cons_append]
        cases hst : startsW (str ".js") ((c :: cs) ++ str ".js") with
        | false => rfl
        | true =>
          rcases startsW_js_append hst with h0 | h1
          · exact absurd h0 (List.cons_ne_nil c cs)
          · rw [h1] at h
            exact absurd h.1 (by simp)
      have ih' := ih h.2
      simp only [tsKeyOf] at ih' ⊢
      have step : replaceFirst (str ".js") (str ".ts") (c :: (cs ++ str ".js"))
          = c :: replaceFirst (str ".js") (str ".ts") (cs ++ str ".js") := by
        rw [replaceFirst]
        simp [hns]
      rw [List.cons_append, step, ih', List.cons_append]
  exact ⟨key, by rw [key]; exact endsW_append_self _ _⟩

/-- Claim C1 amended, witnessed at the path `widgetForm.js`. -/
theorem c1_amended_witness :
    tsKeyOf (str "widgetForm" ++ str ".js") = str "widgetForm" ++ str ".ts" ∧
    endsW (str ".ts") (tsKeyOf (str "widgetForm" ++ str ".js")) = true :=
  c1_amended (str "widgetForm") (by decide)

/-! ### Claim C2: the creation-flow file-name validator -/

/-- Claim C2 counterexample.  The input `" abc "` contains spaces (so the
claim says it must be rejected), yet the validator accepts it because the
code tests the TRIMMED input against `/^[a-zA-Z0-9_-]+$/`. -/
theorem c2_counterexample :
    validateNewName (str " abc ") = true ∧
    (str " abc ").all allowedChar = false := by
  refine ⟨by decide, by decide⟩

/-- Claim C2 (amended): the validator accepts an input string if and only if
its TRIMMED form is non-empty and consists solely of letters, digits,
underscores and hyphens; in particular every input that is itself non-empty
and consists solely of those characters is accepted, and empty input or
input whose trimmed form contains other characters is rejected. -/
theorem c2_amended (s : Str) :
    (validateNewName s = true ↔
      jsTrim s ≠ [] ∧ (jsTrim s).all allowedChar = true) ∧
    (s ≠ [] → s.all allowedChar = true → validateNewName s = true) := by
  constructor
  · unfold validateNewName regexAllowed
    by_cases he : s.isEmpty
    · have : s = [] := by simpa [List.isEmpty_iff] using he
      subst this
      simp [jsTrim_nil]
    · by_cases ht : (jsTrim s).isEmpty
      · have : jsTrim s = [] := by simpa [List.isEmpty_iff] using ht
        simp [he, ht, this]
      · have : jsTrim s ≠ [] := by simpa [List.isEmpty_iff] using ht
        simp [he, ht, this]
  · intro hne hall
    have htrim : jsTrim s = s := jsTrim_of_allowed hall
    unfold validateNewName regexAllowed
    have he : s.isEmpty = false := by simpa [List.isEmpty_iff] using hne
    simp [htrim, he, hall]

/-- Claim C2 amended, witnessed at the input `abc`. -/
theorem c2_amended_witness :
    (validateNewName (str "abc") = true ↔
      jsTrim (str "abc") ≠ [] ∧ (jsTrim (str "abc")).all allowedChar = true) ∧
    (str "abc" ≠ [] → (str "abc").all allowedChar = true →
      validateNewName (str "abc") = true) :=
  c2_amended (str "abc")

theorem findMatch_eq_none_of_not_occurs {pat content : Str}
    (h : occursB pat content = false) : findMatch pat content = none := by
  induction content with
  | nil =>
    simp only [occursB] at h
    simp [findMatch, tryAt, h]
  | cons c cs ih =>
    simp only [occursB, Bool.or_eq_false_iff] at h
    simp [findMatch, tryAt, h.1, ih h.2]

/-- Claim C7: `getWebResourceInfo` returns `null` when the descriptor file
is absent; on the two-line descriptor `Name: co_example` /
`DisplayName: Example Form` (no `FileName:` line) it returns the record with
name `co_example`, display name `Example Form` and `fileName` null; and in
general each field is extracted by an independent pattern search, so a field
whose pattern does not occur in the descriptor at all is `null`. -/
theorem c7_info_fields :
    (∀ d : Str, getWebResourceInfo d none = none) ∧
    (getWebResourceInfo (str "co_example")
        (some (str "Name: co_example\nDisplayName: Example Form")) =
      some (AssetInfo.mk (str "co_example") (some (str "co_example"))
        (some (str "Example Form")) none)) ∧
    (∀ d content : Str,
      (occursB (str "FileName:") content = false →
        (getWebResourceInfo d (some content)).map AssetInfo.fileName =
          some none) ∧
      (occursB (str "Name:") content = false →
        (getWebResourceInfo d (some content)).map AssetInfo.name =
          some none) ∧
      (occursB (str "DisplayName:") content = false →
        (getWebResourceInfo d (some content)).map AssetInfo.displayName =
          some none)) := by
  refine ⟨fun d => rfl, by decide, fun d content => ⟨?_, ?_, ?_⟩⟩ <;>
    intro h <;>
    simp [getWebResourceInfo, findMatch_eq_none_of_not_occurs h]

/-- Claim C7, witnessed: the general field-independence part applied to a
concrete descriptor containing only a `Name:` line. -/
theorem c7_info_fields_witness :
    (getWebResourceInfo (str "d") (some (str "Name: co_x"))).map
      AssetInfo.fileName = some none :=
  (c7_info_fields.2.2 (str "d") (str "Name: co_x")).1 (by decide)

/-! ### Round-trip of the string escaping -/

theorem hexVal_hexDigitChar {n : Nat} (h : n < 16) :
    hexVal (hexDigitChar n) = some n := by
  interval_cases n <;> decide

theorem pjs_quote (cs : Str) : parseJsonString ('"' :: cs) = some ([], cs) := by
  rw [parseJsonString.eq_def]
  simp

theorem pjs_esc_quote (cs : Str) : parseJsonString ('\\' :: '"' :: cs) =
    (parseJsonString cs).map (fun p => ('"' :: p.1, p.2)) := by
  conv_lhs => rw [parseJsonString.eq_def]
  simp

theorem pjs_esc_backslash (cs : Str) : parseJsonString ('\\' :: '\\' :: cs) =
    (parseJsonString cs).map (fun p => ('\\' :: p.1, p.2)) := by
  conv_lhs => rw [parseJsonString.eq_def]
  simp

theorem pjs_esc_n (cs : Str) : parseJsonString ('\\' :: 'n' :: cs) =
    (parseJsonString cs).map (fun p => ('\n' :: p.1, p.2)) := by
  conv_lhs => rw [parseJsonString.eq_def]
  simp

theorem pjs_esc_r (cs : Str) : parseJsonString ('\\' :: 'r' :: cs) =
    (parseJsonString cs).map (fun p => ('\r' :: p.1, p.2)) := by
  conv_lhs => rw [parseJsonString.eq_def]
  simp

theorem pjs_esc_t (cs : Str) : parseJsonString ('\\' :: 't' :: cs) =
    (parseJsonString cs).map (fun p => ('\t' :: p.1, p.2)) := by
  conv_lhs => rw [parseJsonString.eq_def]
  simp

theorem pjs_esc_b (cs : Str) : parseJsonString ('\\' :: 'b' :: cs) =
    (parseJsonString cs).map (fun p => ('\x08' :: p.1, p.2)) := by
  conv_lhs => rw [parseJsonString.eq_def]
  simp

theorem pjs_esc_f (cs : Str) : parseJsonString ('\\' :: 'f' :: cs) =
    (parseJsonString cs).map (fun p => ('\x0c' :: p.1, p.2)) := by
  conv_lhs => rw [parseJsonString.eq_def]
  simp

theorem pjs_esc_u {d1 d2 d3 d4 : Char} {a b c2 d : Nat}
    (e1 : hexVal d1 = some a) (e2 : hexVal d2 = some b)
    (e3 : hexVal d3 = some c2) (e4 : hexVal d4 = some d)
    (hv : (4096 * a + 256 * b + 16 * c2 + d).isValidChar) (cs : Str) :
    parseJsonString ('\\' :: 'u' :: d1 :: d2 :: d3 :: d4 :: cs) =
    (parseJsonString cs).map
      (fun p => (Char.ofNat (4096 * a + 256 * b + 16 * c2 + d) :: p.1, p.2)) := by
  conv_lhs => rw [parseJsonString.eq_def]
  simp [e1, e2, e3, e4, hv]

theorem pjs_lit {c : Char} (hq : ¬c = '"') (hb : ¬c = '\\') (hc : ¬c.toNat < 32)
    (cs : Str) : parseJsonString (c :: cs) =
    (parseJsonString cs).map (fun p => (c :: p.1, p.2)) := by
  conv_lhs => rw [parseJsonString.eq_def]
  simp [hq, hb, hc]

theorem parseJsonString_escape (s : Str) :
    ∀ rest, parseJsonString (escapeStr s ++ '"' :: rest) = some (s, rest) := by
  induction s with
  | nil => intro rest; exact pjs_quote rest
  | cons c s ih =>
    intro rest
    by_cases h1 : c = '"'
    · subst h1
      simp [escapeStr, escapeChar, pjs_esc_quote, ih]
    by_cases h2 : c = '\\'
    · subst h2
      simp [escapeStr, escapeChar, h1, pjs_esc_backslash, ih]
    by_cases h3 : c = '\n'
    · subst h3
      simp [escapeStr, escapeChar, h1, h2, pjs_esc_n, ih]
    by_cases h4 : c = '\r'
    · subst h4
      simp [escapeStr, escapeChar, h1, h2, h3, pjs_esc_r, ih]
    by_cases h5 : c = '\t'
    · subst h5
      simp [escapeStr, escapeChar, h1, h2, h3, h4, pjs_esc_t, ih]
    by_cases h6 : c = '\x08'
    · subst h6
      simp [escapeStr, escapeChar, h1, h2, h3, h4, h5, pjs_esc_b, ih]
    by_cases h7 : c = '\x0c'
    · subst h7
      simp [escapeStr, escapeChar, h1, h2, h3, h4, h5, h6, pjs_esc_f, ih]
    by_cases h8 : c.toNat < 32
    · have hdiv : c.toNat / 16 < 16 := by omega
      have hmod : c.toNat % 16 < 16 := by omega
      have hval : (4096 * 0 + 256 * 0 + 16 * (c.toNat / 16) + c.toNat % 16).isValidChar := by
        refine Or.inl ?_
        omega
      have hn : 4096 * 0 + 256 * 0 + 16 * (c.toNat / 16) + c.toNat % 16 = c.toNat := by
        omega
      simp only [escapeStr, escapeChar, if_neg h1, if_neg h2, if_neg h3, if_neg h4,
        if_neg h5, if_neg h6, if_neg h7, if_pos h8, List.cons_append, List.nil_append,
        List.append_assoc]
      rw [pjs_esc_u (show hexVal '0' = some 0 by decide)
        (show hexVal '0' = some 0 by decide)
        (hexVal_hexDigitChar hdiv) (hexVal_hexDigitChar hmod) hval]
      rw [ih rest, hn, Char.ofNat_toNat]
      rfl
    · simp [escapeStr, escapeChar, h1, h2, h3, h4, h5, h6, h7, h8,
        pjs_lit h1 h2 h8, ih]

/-! ### Round-trip of the whole mapping file -/

theorem skipWs_nil : skipWs [] = [] := rfl

theorem skipWs_space (l : Str) : skipWs (' ' :: l) = skipWs l := by
  rw [skipWs.eq_def]; simp

theorem skipWs_newline (l : Str) : skipWs ('\n' :: l) = skipWs l := by
  rw [skipWs.eq_def]; simp

theorem skipWs_quote (l : Str) : skipWs ('"' :: l) = '"' :: l := by
  rw [skipWs.eq_def]; simp

theorem skipWs_colon (l : Str) : skipWs (':' :: l) = ':' :: l := by
  rw [skipWs.eq_def]; simp

theorem skipWs_comma (l : Str) : skipWs (',' :: l) = ',' :: l := by
  rw [skipWs.eq_def]; simp

theorem skipWs_lbrace (l : Str) : skipWs ('\x7b' :: l) = '\x7b' :: l := by
  rw [skipWs.eq_def]; simp

theorem skipWs_rbrace (l : Str) : skipWs ('\x7d' :: l) = '\x7d' :: l := by
  rw [skipWs.eq_def]; simp

theorem parseEntriesStep_last (rec : Str → Option Entries) (k v : Str) :
    parseEntriesStep rec (entryStr (k, v) ++ ['\n', '\x7d']) = some [(k, v)] := by
  simp only [entryStr, List.cons_append, List.append_assoc, List.singleton_append]
  simp only [parseEntriesStep, skipWs_space, skipWs_quote, skipWs_colon,
    skipWs_newline, skipWs_rbrace, skipWs_nil, parseJsonString_escape]
  simp [skipWs_newline, skipWs_rbrace, skipWs_nil]

theorem parseEntriesStep_cons (rec : Str → Option Entries) (k v : Str)
    (rest : Str) :
    parseEntriesStep rec (entryStr (k, v) ++ ',' :: '\n' :: rest) =
    (rec ('\n' :: rest)).map (fun es => (k, v) :: es) := by
  simp only [entryStr, List.cons_append, List.append_assoc, List.singleton_append]
  simp only [parseEntriesStep, skipWs_space, skipWs_quote, skipWs_colon,
    skipWs_comma, parseJsonString_escape]
  simp [skipWs_comma]

theorem parseEntriesAux_newline (f : Nat) (l : Str) :
    parseEntriesAux f ('\n' :: l) = parseEntriesAux f l := by
  cases f with
  | zero => rfl
  | succ f =>
    show parseEntriesStep (parseEntriesAux f) ('\n' :: l) =
      parseEntriesStep (parseEntriesAux f) l
    simp only [parseEntriesStep, skipWs_newline]

theorem parseEntriesAux_entries :
    ∀ (m : Entries) (fuel : Nat), m ≠ [] → m.length ≤ fuel →
      parseEntriesAux fuel (entriesStr m) = some m := by
  intro m
  induction m with
  | nil => intro fuel h _; exact absurd rfl h
  | cons kv m' ih =>
    intro fuel _ hlen
    cases fuel with
    | zero => simp at hlen
    | succ f =>
      cases m' with
      | nil =>
        show parseEntriesStep (parseEntriesAux f) (entriesStr [kv]) = some [kv]
        have he : entriesStr [kv] = entryStr kv ++ ['\n', '\x7d'] := rfl
        rw [he]
        obtain ⟨k, v⟩ := kv
        exact parseEntriesStep_last _ k v
      | cons kv2 m'' =>
        show parseEntriesStep (parseEntriesAux f) (entriesStr (kv :: kv2 :: m''))
          = some (kv :: kv2 :: m'')
        have he : entriesStr (kv :: kv2 :: m'') =
            entryStr kv ++ ',' :: '\n' :: entriesStr (kv2 :: m'') := rfl
        rw [he]
        obtain ⟨k, v⟩ := kv
        rw [parseEntriesStep_cons, parseEntriesAux_newline,
          ih f (by simp) (by simp at hlen ⊢; omega)]
        rfl

theorem entriesStr_length (m : Entries) : m.length ≤ (entriesStr m).length := by
  induction m with
  | nil => simp [entriesStr]
  | cons kv m' ih =>
    cases m' with
    | nil => simp [entriesStr, entryStr]
    | cons kv2 m'' =>
      simp only [entriesStr, entryStr] at ih ⊢
      simp only [List.length_append, List.length_cons] at ih ⊢
      omega

theorem skipWs_entry (kv : Str × Str) (T : Str) :
    skipWs (entryStr kv ++ T) =
    '"' :: ((escapeStr kv.1 ++
      '"' :: ':' :: ' ' :: '"' :: (escapeStr kv.2 ++ ['"'])) ++ T) := by
  simp only [entryStr, List.cons_append, skipWs_space, skipWs_quote]

theorem skipWs_entriesStr (kv : Str × Str) (m' : Entries) :
    ∃ L, skipWs (entriesStr (kv :: m')) = '"' :: L := by
  cases m' with
  | nil => exact ⟨_, skipWs_entry kv ['\n', '\x7d']⟩
  | cons kv2 m'' => exact ⟨_, skipWs_entry kv (',' :: '\n' :: entriesStr (kv2 :: m''))⟩

theorem parseMappingJson_stringify (m : Entries) :
    parseMappingJson (stringifyMapping m) = some m := by
  cases m with
  | nil => rfl
  | cons kv m' =>
    show parseMappingJson ('\x7b' :: '\n' :: entriesStr (kv :: m')) = _
    obtain ⟨L, hL⟩ := skipWs_entriesStr kv m'
    have hfuel : (kv :: m').length ≤ ('\n' :: entriesStr (kv :: m')).length + 1 := by
      have := entriesStr_length (kv :: m')
      simp only [List.length_cons] at this ⊢
      omega
    simp only [parseMappingJson, skipWs_lbrace, skipWs_newline, hL]
    rw [parseEntriesAux_newline, parseEntriesAux_entries (kv :: m') _ (by simp) hfuel]
    simp

theorem lookupKey_eq_none {m : Entries} {k : Str} :
    lookupKey m k = none ↔ k ∉ keysOf m := by
  induction m with
  | nil => simp [lookupKey, keysOf]
  | cons kv rest ih =>
    obtain ⟨k', v'⟩ := kv
    by_cases h : k' = k
    · subst h
      simp [lookupKey, keysOf]
    · have h' : ¬k = k' := fun e => h e.symm
      simp [lookupKey, keysOf, h, h', ih]

theorem setKey_absent {m : Entries} {k : Str} (h : lookupKey m k = none)
    (v : Str) : setKey m k v = m ++ [(k, v)] := by
  induction m with
  | nil => rfl
  | cons kv rest ih =>
    obtain ⟨k', v'⟩ := kv
    simp only [lookupKey] at h
    by_cases hk : k' = k
    · rw [if_pos hk] at h
      exact absurd h (by simp)
    · rw [if_neg hk] at h
      simp [setKey, hk, ih h]

theorem foldl_setKey (l : Entries) :
    ∀ acc : Entries, (keysOf (acc ++ l)).Nodup →
      l.foldl (fun mm kv => setKey mm kv.1 kv.2) acc = acc ++ l := by
  induction l with
  | nil => intro acc _; simp
  | cons kv l' ih =>
    intro acc hnd
    have hmem : kv.1 ∉ keysOf acc := by
      simp only [keysOf, List.map_append, List.map_cons] at hnd
      have := (List.nodup_append.mp hnd).2.2
      intro hc
      exact this hc (List.mem_cons_self _ _)
    have habs : lookupKey acc kv.1 = none := lookupKey_eq_none.mpr hmem
    have hstep : setKey acc kv.1 kv.2 = acc ++ [kv] := by
      rw [setKey_absent habs]
    simp only [List.foldl_cons, hstep]
    have hnd' : (keysOf ((acc ++ [kv]) ++ l')).Nodup := by
      simpa [List.append_assoc] using hnd
    rw [ih (acc ++ [kv]) hnd']
    simp

theorem jsonToObject_self {m : Entries} (h : (keysOf m).Nodup) :
    jsonToObject m = m := by
  have := foldl_setKey m [] (by simpa using h)
  simpa [jsonToObject] using this

/-- Claim C3: saving any mapping table (a finite map: unique keys) with
`saveMapping` and loading it back with `loadMapping` yields an equal table,
with no error reported. -/
theorem c3_roundtrip (m : Entries) (h : (keysOf m).Nodup) :
    loadMapping (some (saveMapping m)) = (m, none) := by
  simp [loadMapping, saveMapping, parseMappingJson_stringify, jsonToObject_self h]

/-- Claim C3, witnessed at the table mapping `widgetForm.ts` to
`folder-123` and `other.ts` to `folder-9`. -/
theorem c3_roundtrip_witness :
    loadMapping (some (saveMapping
      [(str "widgetForm.ts", str "folder-123"), (str "other.ts", str "folder-9")])) =
    ([(str "widgetForm.ts", str "folder-123"), (str "other.ts", str "folder-9")], none) :=
  c3_roundtrip _ (by decide)

/-- Claim C6: `loadMapping` never raises: an absent mapping file yields the
empty table (after a notice), and a present but unparsable file yields a
reported read error and the empty table. -/
theorem c6_load_soft :
    (loadMapping none = ([], some LoadEvent.noConfig)) ∧
    (∀ content : Str, parseMappingJson content = none →
      loadMapping (some content) = ([], some LoadEvent.readError)) := by
  refine ⟨rfl, fun content h => ?_⟩
  simp [loadMapping, h]

/-- Claim C6, witnessed at the unparsable content `garbage`. -/
theorem c6_load_soft_witness :
    loadMapping (some (str "garbage")) = ([], some LoadEvent.readError) :=
  c6_load_soft.2 (str "garbage") (by decide)

/-! ### Mapping-table lemmas -/

theorem lookupKey_mem {m : Entries} {k v : Str}
    (h : lookupKey m k = some v) : (k, v) ∈ m := by
  induction m with
  | nil => simp [lookupKey] at h
  | cons kv rest ih =>
    obtain ⟨k', v'⟩ := kv
    simp only [lookupKey] at h
    by_cases hk : k' = k
    · rw [if_pos hk] at h
      subst hk
      simp only [Option.some.injEq] at h
      subst h
      exact List.mem_cons_self _ _
    · rw [if_neg hk] at h
      exact List.mem_cons_of_mem _ (ih h)

theorem mem_lookupKey {m : Entries} {k v : Str} (hnd : (keysOf m).Nodup)
    (h : (k, v) ∈ m) : lookupKey m k = some v := by
  induction m with
  | nil => simp at h
  | cons kv rest ih =>
    obtain ⟨k', v'⟩ := kv
    simp only [keysOf, List.map_cons, List.nodup_cons] at hnd
    rcases List.mem_cons.mp h with h1 | h1
    · obtain ⟨e1, e2⟩ := Prod.mk.injEq .. ▸ h1
      subst e1; subst e2
      simp [lookupKey]
    · have hne : k' ≠ k := by
        intro e
        subst e
        exact hnd.1 (by simpa [keysOf] using List.mem_map_of_mem Prod.fst h1)
      simp only [lookupKey, if_neg hne]
      exact ih hnd.2 h1

theorem setKey_self {m : Entries} {k v : Str}
    (h : lookupKey m k = some v) : setKey m k v = m := by
  induction m with
  | nil => simp [lookupKey] at h
  | cons kv rest ih =>
    obtain ⟨k', v'⟩ := kv
    simp only [lookupKey] at h
    by_cases hk : k' = k
    · subst hk
      rw [if_pos rfl] at h
      have hv : v' = v := by injection h
      subst hv
      simp [setKey]
    · rw [if_neg hk] at h
      simp [setKey, hk, ih h]

theorem lookup_delKey (m : Entries) (k k' : Str) :
    lookupKey (delKey m k) k' = if k' = k then none else lookupKey m k' := by
  induction m with
  | nil => simp [delKey, lookupKey]
  | cons kv rest ih =>
    obtain ⟨k0, v0⟩ := kv
    by_cases h0 : k0 = k
    · have hdel : delKey ((k0, v0) :: rest) k = delKey rest k := by
        simp [delKey, List.filter_cons, h0]
      rw [hdel, ih]
      by_cases h' : k' = k
      · simp [h']
      · have hne : ¬k0 = k' := fun e => h' (by rw [← e, h0])
        simp [h', lookupKey, hne]
    · have hdel : delKey ((k0, v0) :: rest) k = (k0, v0) :: delKey rest k := by
        simp [delKey, List.filter_cons, h0]
      rw [hdel]
      simp only [lookupKey]
      by_cases h1 : k0 = k'
      · subst h1
        have hne : ¬k0 = k := h0
        simp [hne]
      · simp [h1, ih]

theorem nodup_delKey {m : Entries} (hnd : (keysOf m).Nodup) (k : Str) :
    (keysOf (delKey m k)).Nodup := by
  have hsub : List.Sublist (keysOf (delKey m k)) (keysOf m) :=
    List.Sublist.map Prod.fst (List.filter_sublist m)
  exact List.Nodup.sublist hsub hnd

theorem nodup_filter {m : Entries} (hnd : (keysOf m).Nodup)
    (p : Str × Str → Bool) : (keysOf (m.filter p)).Nodup :=
  List.Nodup.sublist (List.Sublist.map Prod.fst (List.filter_sublist m)) hnd

theorem lookup_filter {m : Entries} (hnd : (keysOf m).Nodup)
    (p : Str × Str → Bool) (k : Str) :
    lookupKey (m.filter p) k =
      match lookupKey m k with
      | some v => if p (k, v) then some v else none
      | none => none := by
  induction m with
  | nil => simp [lookupKey]
  | cons kv rest ih =>
    obtain ⟨k0, v0⟩ := kv
    simp only [keysOf, List.map_cons, List.nodup_cons] at hnd
    have ih' := ih hnd.2
    rw [List.filter_cons]
    by_cases h0 : k0 = k
    · subst h0
      have hrest : lookupKey rest k0 = none := lookupKey_eq_none.mpr hnd.1
      by_cases hp : p (k0, v0)
      · rw [if_pos hp]
        simp [lookupKey, hp]
      · rw [if_neg hp, ih', hrest]
        simp [lookupKey, hp]
    · by_cases hp : p (k0, v0)
      · rw [if_pos hp]
        simp only [lookupKey, if_neg h0]
        exact ih'
      · rw [if_neg hp, ih']
        simp only [lookupKey, if_neg h0]

/-! ### Shape preservation -/

theorem fileNames_setContent (files : List (Str × Str)) (n c : Str) :
    (setContent files n c).map Prod.fst = files.map Prod.fst := by
  induction files with
  | nil => rfl
  | cons f fs ih =>
    simp only [setContent, List.map_cons] at ih ⊢
    by_cases h : f.1 = n
    · simp [h, ih]
    · simp [h, ih]

theorem shape_updateFolder (fl : List Folder) (d n c : Str) :
    shape (updateFolder fl d n c) = shape fl := by
  induction fl with
  | nil => rfl
  | cons fo fl' ih =>
    simp only [shape, updateFolder, List.map_cons] at ih ⊢
    by_cases h : fo.name = d
    · simp only [if_pos h, ih]
      simp [fileNames, fileNames_setContent]
    · simp [if_neg h, ih]

theorem jsNamesAt_congr {fl1 fl2 : List Folder} (h : shape fl1 = shape fl2)
    (d : Str) : jsNamesAt fl1 d = jsNamesAt fl2 d := by
  induction fl1 generalizing fl2 with
  | nil =>
    cases fl2 with
    | nil => rfl
    | cons a l => simp [shape] at h
  | cons fo fl1' ih =>
    cases fl2 with
    | nil => simp [shape] at h
    | cons go fl2' =>
      simp only [shape, List.map_cons, List.cons.injEq, Prod.mk.injEq] at h
      obtain ⟨⟨hname, hfiles⟩, htail⟩ := h
      have htl : jsNamesAt fl1' d = jsNamesAt fl2' d := ih htail
      by_cases hd : fo.name = d
      · have hd2 : go.name = d := by rw [← hname]; exact hd
        have hjs : jsFileNames fo = jsFileNames go := by
          simp [jsFileNames, fileNames] at hfiles ⊢
          rw [hfiles]
        simp [jsNamesAt, findFolder, List.find?, hd, hd2, hjs]
      · have hd2 : ¬go.name = d := by rw [← hname]; exact hd
        have hstep : jsNamesAt (fo :: fl1') d = jsNamesAt fl1' d := by
          simp [jsNamesAt, findFolder, List.find?, hd]
        have hstep2 : jsNamesAt (go :: fl2') d = jsNamesAt fl2' d := by
          simp [jsNamesAt, findFolder, List.find?, hd2]
        rw [hstep, hstep2, htl]

theorem findFolder_isNone_congr {fl1 fl2 : List Folder}
    (h : shape fl1 = shape fl2) (d : Str) :
    (findFolder fl1 d).isNone = (findFolder fl2 d).isNone := by
  have := jsNamesAt_congr h d
  simpa [jsNamesAt] using congrArg Option.isNone this

/-! ### Unfolding equations for the reconciler -/

theorem syncLoop_nil (fail : CopyOracle) (fl : List Folder) (m : Entries) :
    syncLoop fail [] fl m = LoopResult.mk fl m 0 [] := rfl

theorem syncLoop_cons (fail : CopyOracle) (src : Str × Str)
    (rest : List (Str × Str)) (fl : List Folder) (m : Entries) :
    syncLoop fail (src :: rest) fl m =
    LoopResult.mk
      (syncLoop fail rest (syncStep fl m fail src).folders
        (syncStep fl m fail src).mapping).folders
      (syncLoop fail rest (syncStep fl m fail src).folders
        (syncStep fl m fail src).mapping).mapping
      ((syncStep fl m fail src).add +
        (syncLoop fail rest (syncStep fl m fail src).folders
          (syncStep fl m fail src).mapping).count)
      ((syncStep fl m fail src).event ::
        (syncLoop fail rest (syncStep fl m fail src).folders
          (syncStep fl m fail src).mapping).events) := rfl

theorem syncStep_unmapped {m : Entries} {src : Str × Str}
    (fl : List Folder) (fail : CopyOracle)
    (h : lookupKey m (tsKeyOf src.1) = none) :
    syncStep fl m fail src =
      StepResult.mk fl m 0 (SyncEvent.unmapped (tsKeyOf src.1)) := by
  simp [syncStep, h]

theorem syncStep_dirMissing {m : Entries} {src : Str × Str} {dir : Str}
    (fl : List Folder) (fail : CopyOracle)
    (h : lookupKey m (tsKeyOf src.1) = some dir)
    (h2 : findFolder fl dir = none) :
    syncStep fl m fail src =
      StepResult.mk fl (delKey m (tsKeyOf src.1)) 0
        (SyncEvent.dirMissing (tsKeyOf src.1) dir) := by
  simp [syncStep, h, h2]

theorem syncStep_found {m : Entries} {src : Str × Str} {dir : Str}
    {fo : Folder} (fl : List Folder) (fail : CopyOracle)
    (h : lookupKey m (tsKeyOf src.1) = some dir)
    (h2 : findFolder fl dir = some fo) :
    syncStep fl m fail src =
      StepResult.mk (syncFile src fo fl m fail).folders
        (syncFile src fo fl m fail).mapping
        (if (syncFile src fo fl m fail).ok then 1 else 0)
        (syncFile src fo fl m fail).event := by
  simp [syncStep, h, h2]

theorem syncFile_noJs {fo : Folder} (src : Str × Str) (fl : List Folder)
    (m : Entries) (fail : CopyOracle) (h : jsFileNames fo = []) :
    syncFile src fo fl m fail =
      FileResult.mk false fl m (SyncEvent.noJsFiles (tsKeyOf src.1) fo.name) := by
  simp [syncFile, h]

theorem syncFile_copyFailed {fo : Folder} {t : Str} {ts : List Str}
    (src : Str × Str) (fl : List Folder) (m : Entries) (fail : CopyOracle)
    (h : jsFileNames fo = t :: ts) (hf : fail src.1 fo.name t = true) :
    syncFile src fo fl m fail =
      FileResult.mk false fl m (SyncEvent.copyFailed (tsKeyOf src.1) fo.name) := by
  simp [syncFile, h, hf]

theorem syncFile_ok {fo : Folder} {t : Str} {ts : List Str}
    (src : Str × Str) (fl : List Folder) (m : Entries) (fail : CopyOracle)
    (h : jsFileNames fo = t :: ts) (hf : fail src.1 fo.name t = false) :
    syncFile src fo fl m fail =
      FileResult.mk true (updateFolder fl fo.name t src.2)
        (setKey m (tsKeyOf src.1) fo.name)
        (SyncEvent.synced (tsKeyOf src.1) fo.name t) := by
  simp [syncFile, h, hf]

theorem findFolder_name {fl : List Folder} {d : Str} {fo : Folder}
    (h : findFolder fl d = some fo) : fo.name = d := by
  have := List.find?_some h
  simpa using this

theorem findFolder_mem {fl : List Folder} {d : Str} {fo : Folder}
    (h : findFolder fl d = some fo) : fo ∈ fl :=
  List.mem_of_find?_eq_some h

/-! ### Shape preservation across a run -/

theorem syncStep_shape (fl : List Folder) (m : Entries) (fail : CopyOracle)
    (src : Str × Str) : shape (syncStep fl m fail src).folders = shape fl := by
  rcases hlk : lookupKey m (tsKeyOf src.1) with _ | dir
  · rw [syncStep_unmapped fl fail hlk]
  · rcases hff : findFolder fl dir with _ | fo
    · rw [syncStep_dirMissing fl fail hlk hff]
    · rw [syncStep_found fl fail hlk hff]
      rcases hjs : jsFileNames fo with _ | ⟨t, ts⟩
      · rw [syncFile_noJs src fl m fail hjs]
      · cases hf : fail src.1 fo.name t with
        | true => rw [syncFile_copyFailed src fl m fail hjs hf]
        | false =>
          rw [syncFile_ok src fl m fail hjs hf]
          exact shape_updateFolder fl fo.name t src.2

theorem syncLoop_shape (fail : CopyOracle) :
    ∀ (dist : List (Str × Str)) (fl : List Folder) (m : Entries),
      shape (syncLoop fail dist fl m).folders = shape fl := by
  intro dist
  induction dist with
  | nil => intro fl m; rw [syncLoop_nil]
  | cons src rest ih =>
    intro fl m
    rw [syncLoop_cons]
    exact (ih _ _).trans (syncStep_shape fl m fail src)

/-! ### The mapping table after a run: the pruning closed form -/

theorem filter_filter' {α : Type} (p q : α → Bool) (l : List α) :
    (l.filter p).filter q = l.filter (fun a => p a && q a) := by
  induction l with
  | nil => rfl
  | cons a l ih =>
    by_cases hp : p a
    · by_cases hq : q a
      · simp [List.filter_cons, hp, hq, ih]
      · simp [List.filter_cons, hp, hq, ih]
    · simp [List.filter_cons, hp, ih]

theorem keepB_extend_none {m : Entries} {key : Str} {fl : List Folder}
    (hlk : lookupKey m key = none) (dk : List Str) :
    ∀ kv ∈ m, keepB dk fl kv = keepB (key :: dk) fl kv := by
  intro kv hm
  have hne : kv.1 ≠ key := by
    intro e
    have : kv.1 ∈ keysOf m := List.mem_map_of_mem Prod.fst hm
    rw [e] at this
    exact lookupKey_eq_none.mp hlk this
  simp [keepB, List.mem_cons, hne]

theorem keepB_extend_present {m : Entries} {key dir : Str} {fl : List Folder}
    (hnd : (keysOf m).Nodup) (hlk : lookupKey m key = some dir)
    (hpres : (findFolder fl dir).isNone = false) (dk : List Str) :
    ∀ kv ∈ m, keepB dk fl kv = keepB (key :: dk) fl kv := by
  intro kv hm
  by_cases he : kv.1 = key
  · have hv : kv.2 = dir := by
      have h1 : lookupKey m kv.1 = some kv.2 := mem_lookupKey hnd (by simpa using hm)
      rw [he, hlk] at h1
      injection h1.symm
    simp [keepB, hv, hpres]
  · simp [keepB, List.mem_cons, he]

theorem keepB_extend_absent {m : Entries} {key dir : Str} {fl : List Folder}
    (hnd : (keysOf m).Nodup) (hlk : lookupKey m key = some dir)
    (hnone : findFolder fl dir = none) (dk : List Str) :
    ∀ kv ∈ m, (!decide (kv.1 = key) && keepB dk fl kv) = keepB (key :: dk) fl kv := by
  intro kv hm
  by_cases he : kv.1 = key
  · have hv : kv.2 = dir := by
      have h1 : lookupKey m kv.1 = some kv.2 := mem_lookupKey hnd (by simpa using hm)
      rw [he, hlk] at h1
      injection h1.symm
    simp [keepB, he, hv, hnone, List.mem_cons]
  · simp [keepB, List.mem_cons, he]

theorem keepB_shape_congr {fl1 fl2 : List Folder} (h : shape fl1 = shape fl2)
    (dk : List Str) (kv : Str × Str) : keepB dk fl1 kv = keepB dk fl2 kv := by
  simp [keepB, findFolder_isNone_congr h]

theorem syncLoop_mapping (fail : CopyOracle) :
    ∀ (dist : List (Str × Str)) (fl : List Folder) (m : Entries),
      (keysOf m).Nodup →
      (syncLoop fail dist fl m).mapping = m.filter (keepB (distKeys dist) fl) := by
  intro dist
  induction dist with
  | nil =>
    intro fl m _
    rw [syncLoop_nil]
    have hall : ∀ kv ∈ m, keepB (distKeys []) fl kv = true := by
      intro kv _
      simp [keepB, distKeys]
    exact (List.filter_eq_self.mpr hall).symm
  | cons src rest ih =>
    intro fl m hnd
    rw [syncLoop_cons]
    have hdk : distKeys (src :: rest) = tsKeyOf src.1 :: distKeys rest := rfl
    rcases hlk : lookupKey m (tsKeyOf src.1) with _ | dir
    · rw [syncStep_unmapped fl fail hlk]
      rw [ih fl m hnd, hdk]
      exact List.filter_congr (keepB_extend_none hlk (distKeys rest))
    · rcases hff : findFolder fl dir with _ | fo
      · rw [syncStep_dirMissing fl fail hlk hff]
        rw [ih fl (delKey m (tsKeyOf src.1)) (nodup_delKey hnd _)]
        show (m.filter fun kv => !decide (kv.1 = tsKeyOf src.1)).filter
          (keepB (distKeys rest) fl) = _
        rw [filter_filter', hdk]
        exact List.filter_congr (keepB_extend_absent hnd hlk hff (distKeys rest))
      · rw [syncStep_found fl fail hlk hff]
        have hpres : (findFolder fl dir).isNone = false := by simp [hff]
        rcases hjs : jsFileNames fo with _ | ⟨t, ts⟩
        · rw [syncFile_noJs src fl m fail hjs]
          rw [ih fl m hnd, hdk]
          exact List.filter_congr (keepB_extend_present hnd hlk hpres (distKeys rest))
        · cases hf : fail src.1 fo.name t with
          | true =>
            rw [syncFile_copyFailed src fl m fail hjs hf]
            rw [ih fl m hnd, hdk]
            exact List.filter_congr (keepB_extend_present hnd hlk hpres (distKeys rest))
          | false =>
            rw [syncFile_ok src fl m fail hjs hf]
            have hset : setKey m (tsKeyOf src.1) fo.name = m := by
              have : fo.name = dir := findFolder_name hff
              rw [this]
              exact setKey_self hlk
            rw [hset]
            rw [ih (updateFolder fl fo.name t src.2) m hnd, hdk]
            have hsh : shape (updateFolder fl fo.name t src.2) = shape fl :=
              shape_updateFolder fl fo.name t src.2
            calc m.filter (keepB (distKeys rest) (updateFolder fl fo.name t src.2))
                = m.filter (keepB (distKeys rest) fl) :=
                  List.filter_congr (fun kv _ => keepB_shape_congr hsh _ kv)
              _ = m.filter (keepB (tsKeyOf src.1 :: distKeys rest) fl) :=
                  List.filter_congr (keepB_extend_present hnd hlk hpres (distKeys rest))

/-! ### The count after a run: the closed form -/

theorem countsB_delKey {m : Entries} {key dir : Str} {fl : List Folder}
    (hlk : lookupKey m key = some dir) (hff : findFolder fl dir = none)
    (fail : CopyOracle) (x : Str × Str) :
    countsB (delKey m key) fl fail x = countsB m fl fail x := by
  by_cases he : tsKeyOf x.1 = key
  · rw [countsB, countsB, lookup_delKey, if_pos he, he, hlk]
    simp [jsNamesAt, hff]
  · rw [countsB, countsB, lookup_delKey, if_neg he]

theorem countsB_shape_congr {fl1 fl2 : List Folder} (h : shape fl1 = shape fl2)
    (m : Entries) (fail : CopyOracle) (x : Str × Str) :
    countsB m fl1 fail x = countsB m fl2 fail x := by
  rcases hl : lookupKey m (tsKeyOf x.1) with _ | d
  · simp only [countsB, hl]
  · simp only [countsB, hl, jsNamesAt_congr h]

theorem syncLoop_count (fail : CopyOracle) :
    ∀ (dist : List (Str × Str)) (fl : List Folder) (m : Entries),
      (keysOf m).Nodup →
      (syncLoop fail dist fl m).count = (dist.filter (countsB m fl fail)).length := by
  intro dist
  induction dist with
  | nil => intro fl m _; rw [syncLoop_nil]; rfl
  | cons src rest ih =>
    intro fl m hnd
    rw [syncLoop_cons]
    rw [List.filter_cons]
    rcases hlk : lookupKey m (tsKeyOf src.1) with _ | dir
    · rw [syncStep_unmapped fl fail hlk]
      have hsrc : countsB m fl fail src = false := by
        rw [countsB, hlk]
      rw [hsrc, ih fl m hnd]
      simp
    · rcases hff : findFolder fl dir with _ | fo
      · rw [syncStep_dirMissing fl fail hlk hff]
        have hsrc : countsB m fl fail src = false := by
          rw [countsB, hlk]
          simp [jsNamesAt, hff]
        rw [hsrc, ih fl (delKey m (tsKeyOf src.1)) (nodup_delKey hnd _)]
        rw [List.filter_congr (fun x _ => countsB_delKey hlk hff fail x)]
        simp
      · rw [syncStep_found fl fail hlk hff]
        rcases hjs : jsFileNames fo with _ | ⟨t, ts⟩
        · rw [syncFile_noJs src fl m fail hjs]
          have hsrc : countsB m fl fail src = false := by
            rw [countsB, hlk]
            simp [jsNamesAt, hff, hjs]
          rw [hsrc, ih fl m hnd]
          simp
        · cases hf : fail src.1 fo.name t with
          | true =>
            rw [syncFile_copyFailed src fl m fail hjs hf]
            have hf' : fail src.1 dir t = true := by
              rw [← findFolder_name hff]; exact hf
            have hsrc : countsB m fl fail src = false := by
              rw [countsB, hlk]
              simp [jsNamesAt, hff, hjs, hf']
            rw [hsrc, ih fl m hnd]
            simp
          | false =>
            rw [syncFile_ok src fl m fail hjs hf]
            have hf' : fail src.1 dir t = false := by
              rw [← findFolder_name hff]; exact hf
            have hsrc : countsB m fl fail src = true := by
              rw [countsB, hlk]
              simp [jsNamesAt, hff, hjs, hf']
            have hset : setKey m (tsKeyOf src.1) fo.name = m := by
              rw [findFolder_name hff]
              exact setKey_self hlk
            rw [hset, hsrc, ih (updateFolder fl fo.name t src.2) m hnd]
            have hsh : shape (updateFolder fl fo.name t src.2) = shape fl :=
              shape_updateFolder fl fo.name t src.2
            rw [List.filter_congr (fun x _ => countsB_shape_congr hsh m fail x)]
            simp [Nat.add_comm]

/-! ### Event counting: the pruning warning is emitted exactly once -/

theorem syncLoop_events_absent (fail : CopyOracle) (k d : Str) :
    ∀ (dist : List (Str × Str)) (fl : List Folder) (m : Entries),
      lookupKey m k = none →
      (syncLoop fail dist fl m).events.countP (refsEntry k d) = 0 ∧
      (syncLoop fail dist fl m).events.countP (isAttempt k) = 0 := by
  intro dist
  induction dist with
  | nil => intro fl m _; rw [syncLoop_nil]; exact ⟨rfl, rfl⟩
  | cons src rest ih =>
    intro fl m hlkk
    rw [syncLoop_cons]
    have hne : tsKeyOf src.1 ≠ k ∨ lookupKey m (tsKeyOf src.1) = none := by
      by_cases he : tsKeyOf src.1 = k
      · right; rw [he]; exact hlkk
      · left; exact he
    rcases hlk : lookupKey m (tsKeyOf src.1) with _ | dir
    · rw [syncStep_unmapped fl fail hlk]
      obtain ⟨h1, h2⟩ := ih fl m hlkk
      exact ⟨by simp [List.countP_cons, refsEntry, h1],
             by simp [List.countP_cons, isAttempt, h2]⟩
    · have he : tsKeyOf src.1 ≠ k := by
        rcases hne with h | h
        · exact h
        · rw [h] at hlk; exact absurd hlk (by simp)
      rcases hff : findFolder fl dir with _ | fo
      · rw [syncStep_dirMissing fl fail hlk hff]
        have hlkk' : lookupKey (delKey m (tsKeyOf src.1)) k = none := by
          rw [lookup_delKey]
          by_cases h' : k = tsKeyOf src.1
          · rw [if_pos h']
          · rw [if_neg h']; exact hlkk
        obtain ⟨h1, h2⟩ := ih fl _ hlkk'
        exact ⟨by simp [List.countP_cons, refsEntry, h1, he],
               by simp [List.countP_cons, isAttempt, h2]⟩
      · rw [syncStep_found fl fail hlk hff]
        rcases hjs : jsFileNames fo with _ | ⟨t, ts⟩
        · rw [syncFile_noJs src fl m fail hjs]
          obtain ⟨h1, h2⟩ := ih fl m hlkk
          exact ⟨by simp [List.countP_cons, refsEntry, h1],
                 by simp [List.countP_cons, isAttempt, h2]⟩
        · cases hf : fail src.1 fo.name t with
          | true =>
            rw [syncFile_copyFailed src fl m fail hjs hf]
            obtain ⟨h1, h2⟩ := ih fl m hlkk
            exact ⟨by simp [List.countP_cons, refsEntry, h1],
                   by simp [List.countP_cons, isAttempt, h2, he]⟩
          | false =>
            rw [syncFile_ok src fl m fail hjs hf]
            have hset : setKey m (tsKeyOf src.1) fo.name = m := by
              rw [findFolder_name hff]
              exact setKey_self hlk
            rw [hset]
            obtain ⟨h1, h2⟩ := ih (updateFolder fl fo.name t src.2) m hlkk
            exact ⟨by simp [List.countP_cons, refsEntry, h1],
                   by simp [List.countP_cons, isAttempt, h2, he]⟩

theorem syncLoop_events_present (fail : CopyOracle) (k d : Str) :
    ∀ (dist : List (Str × Str)) (fl : List Folder) (m : Entries),
      (keysOf m).Nodup → lookupKey m k = some d →
      findFolder fl d = none → k ∈ distKeys dist →
      (syncLoop fail dist fl m).events.countP (refsEntry k d) = 1 ∧
      (syncLoop fail dist fl m).events.countP (isAttempt k) = 0 := by
  intro dist
  induction dist with
  | nil => intro fl m _ _ _ hmem; simp [distKeys] at hmem
  | cons src rest ih =>
    intro fl m hnd hlk hff hmem
    rw [syncLoop_cons]
    by_cases he : tsKeyOf src.1 = k
    · subst he
      rw [syncStep_dirMissing fl fail hlk hff]
      have habs : lookupKey (delKey m (tsKeyOf src.1)) (tsKeyOf src.1) = none := by
        rw [lookup_delKey, if_pos rfl]
      obtain ⟨h1, h2⟩ := syncLoop_events_absent fail (tsKeyOf src.1) d rest fl _ habs
      exact ⟨by simp [List.countP_cons, refsEntry, h1],
             by simp [List.countP_cons, isAttempt, h2]⟩
    · have hmem' : k ∈ distKeys rest := by
        have : distKeys (src :: rest) = tsKeyOf src.1 :: distKeys rest := rfl
        rw [this] at hmem
        rcases List.mem_cons.mp hmem with h | h
        · exact absurd h.symm he
        · exact h
      rcases hlk0 : lookupKey m (tsKeyOf src.1) with _ | dir0
      · rw [syncStep_unmapped fl fail hlk0]
        obtain ⟨h1, h2⟩ := ih fl m hnd hlk hff hmem'
        exact ⟨by simp [List.countP_cons, refsEntry, h1],
               by simp [List.countP_cons, isAttempt, h2]⟩
      · rcases hff0 : findFolder fl dir0 with _ | fo
        · rw [syncStep_dirMissing fl fail hlk0 hff0]
          have hlk' : lookupKey (delKey m (tsKeyOf src.1)) k = some d := by
            rw [lookup_delKey, if_neg (fun e => he e.symm)]
            exact hlk
          obtain ⟨h1, h2⟩ := ih fl _ (nodup_delKey hnd _) hlk' hff hmem'
          exact ⟨by simp [List.countP_cons, refsEntry, h1, he],
                 by simp [List.countP_cons, isAttempt, h2]⟩
        · rw [syncStep_found fl fail hlk0 hff0]
          rcases hjs : jsFileNames fo with _ | ⟨t, ts⟩
          · rw [syncFile_noJs src fl m fail hjs]
            obtain ⟨h1, h2⟩ := ih fl m hnd hlk hff hmem'
            exact ⟨by simp [List.countP_cons, refsEntry, h1],
                   by simp [List.countP_cons, isAttempt, h2]⟩
          · cases hf : fail src.1 fo.name t with
            | true =>
              rw [syncFile_copyFailed src fl m fail hjs hf]
              obtain ⟨h1, h2⟩ := ih fl m hnd hlk hff hmem'
              exact ⟨by simp [List.countP_cons, refsEntry, h1],
                     by simp [List.countP_cons, isAttempt, h2, he]⟩
            | false =>
              rw [syncFile_ok src fl m fail hjs hf]
              have hset : setKey m (tsKeyOf src.1) fo.name = m := by
                rw [findFolder_name hff0]
                exact setKey_self hlk0
              have hsh : shape (updateFolder fl fo.name t src.2) = shape fl :=
                shape_updateFolder fl fo.name t src.2
              have hffu : findFolder (updateFolder fl fo.name t src.2) d = none := by
                have hh := findFolder_isNone_congr hsh d
                rw [hff] at hh
                simp only [Option.isNone_none] at hh
                exact Option.eq_none_of_isNone hh
              rw [hset]
              obtain ⟨h1, h2⟩ := ih (updateFolder fl fo.name t src.2) m hnd hlk hffu hmem'
              exact ⟨by simp [List.countP_cons, refsEntry, h1],
                     by simp [List.countP_cons, isAttempt, h2, he]⟩

/-! ### The loaded table always has unique keys -/

theorem mem_keysOf_setKey {m : Entries} {k v x : Str}
    (h : x ∈ keysOf (setKey m k v)) : x ∈ keysOf m ∨ x = k := by
  induction m with
  | nil =>
    simp [setKey, keysOf] at h
    exact Or.inr h
  | cons kv rest ih =>
    obtain ⟨k', v'⟩ := kv
    by_cases hk : k' = k
    · rw [show setKey ((k', v') :: rest) k v = (k, v) :: rest by simp [setKey, hk]] at h
      simp only [keysOf, List.map_cons, List.mem_cons] at h ⊢
      rcases h with h | h
      · exact Or.inr h
      · exact Or.inl (Or.inr h)
    · rw [show setKey ((k', v') :: rest) k v = (k', v') :: setKey rest k v by
        simp [setKey, hk]] at h
      simp only [keysOf, List.map_cons, List.mem_cons] at h ⊢
      rcases h with h | h
      · exact Or.inl (Or.inl h)
      · rcases ih h with h2 | h2
        · exact Or.inl (Or.inr h2)
        · exact Or.inr h2

theorem nodup_setKey {m : Entries} (h : (keysOf m).Nodup) (k v : Str) :
    (keysOf (setKey m k v)).Nodup := by
  induction m with
  | nil => simp [setKey, keysOf]
  | cons kv rest ih =>
    obtain ⟨k', v'⟩ := kv
    simp only [keysOf, List.map_cons, List.nodup_cons] at h
    by_cases hk : k' = k
    · rw [show setKey ((k', v') :: rest) k v = (k, v) :: rest by simp [setKey, hk]]
      simp only [keysOf, List.map_cons, List.nodup_cons]
      exact ⟨by rw [← hk]; exact h.1, h.2⟩
    · rw [show setKey ((k', v') :: rest) k v = (k', v') :: setKey rest k v by
        simp [setKey, hk]]
      simp only [keysOf, List.map_cons, List.nodup_cons]
      refine ⟨?_, ih h.2⟩
      intro hc
      rcases mem_keysOf_setKey hc with h2 | h2
      · exact h.1 h2
      · exact hk h2

theorem nodup_jsonToObject (es : Entries) :
    (keysOf (jsonToObject es)).Nodup := by
  have gen : ∀ (l : Entries) (acc : Entries), (keysOf acc).Nodup →
      (keysOf (l.foldl (fun mm kv => setKey mm kv.1 kv.2) acc)).Nodup := by
    intro l
    induction l with
    | nil => intro acc h; exact h
    | cons kv l' ih =>
      intro acc h
      exact ih (setKey acc kv.1 kv.2) (nodup_setKey h kv.1 kv.2)
  exact gen es [] (by simp [keysOf])

theorem loadMapping_nodup (f : Option Str) :
    (keysOf (loadMapping f).1).Nodup := by
  cases f with
  | none => simp [loadMapping, keysOf]
  | some c =>
    rcases hp : parseMappingJson c with _ | es
    · simp [loadMapping, hp, keysOf]
    · simp only [loadMapping, hp]
      exact nodup_jsonToObject es

/-- The save/load round trip, for internal use by the run-level lemmas. -/
theorem loadMapping_saveMapping (m : Entries) (h : (keysOf m).Nodup) :
    loadMapping (some (saveMapping m)) = (m, none) := by
  simp [loadMapping, saveMapping, parseMappingJson_stringify, jsonToObject_self h]

/-! ### Run-level unfolding and congruences -/

theorem syncWebResources_empty {fs : FS} (mfile : Option Str)
    (fail : CopyOracle) (hd : fs.dist.isEmpty = true) :
    syncWebResources fs mfile fail = RunResult.mk fs mfile 0 [] := by
  simp [syncWebResources, hd]

theorem syncWebResources_run {fs : FS} (mfile : Option Str) (fail : CopyOracle)
    (hd : fs.dist.isEmpty = false) :
    syncWebResources fs mfile fail =
      RunResult.mk
        (FS.mk fs.dist
          (syncLoop fail fs.dist fs.folders (loadMapping mfile).1).folders)
        (some (saveMapping
          (syncLoop fail fs.dist fs.folders (loadMapping mfile).1).mapping))
        (syncLoop fail fs.dist fs.folders (loadMapping mfile).1).count
        (syncLoop fail fs.dist fs.folders (loadMapping mfile).1).events := by
  simp [syncWebResources, hd]

theorem countsB_filter_keep {m : Entries} {fl : List Folder} {dk : List Str}
    (hnd : (keysOf m).Nodup) (fail : CopyOracle) (x : Str × Str)
    (hx : tsKeyOf x.1 ∈ dk) :
    countsB (m.filter (keepB dk fl)) fl fail x = countsB m fl fail x := by
  have hlf := lookup_filter hnd (keepB dk fl) (tsKeyOf x.1)
  rcases hl : lookupKey m (tsKeyOf x.1) with _ | v
  · rw [hl] at hlf
    rw [countsB, countsB, hlf, hl]
  · rw [hl] at hlf
    dsimp only at hlf
    rcases hffv : findFolder fl v with _ | fo
    · have hkeep : keepB dk fl (tsKeyOf x.1, v) = false := by
        simp [keepB, hx, hffv]
      rw [hkeep] at hlf
      simp only [Bool.false_eq_true, if_false] at hlf
      rw [countsB, countsB, hlf, hl]
      simp [jsNamesAt, hffv]
    · have hkeep : keepB dk fl (tsKeyOf x.1, v) = true := by
        simp [keepB, hx, hffv]
      rw [hkeep] at hlf
      simp only [if_true] at hlf
      rw [countsB, countsB, hlf, hl]

/-- Claim C4 counterexample.  With one mapped artifact whose target folder
exists and holds a `.js` file, and nothing changed between the runs, the
second reconciler run reports ONE synced file (it re-copies and counts the
artifact), not zero as the claim states. -/
theorem c4_counterexample :
    (syncWebResources (syncWebResources cexFS cexMapFile noFailOracle).fs
        (syncWebResources cexFS cexMapFile noFailOracle).mappingFile
        noFailOracle).syncCount = 1 ∧
    ¬(syncWebResources (syncWebResources cexFS cexMapFile noFailOracle).fs
        (syncWebResources cexFS cexMapFile noFailOracle).mappingFile
        noFailOracle).syncCount = 0 := by
  refine ⟨by decide, by decide⟩

/-- Claim C4 (amended): running the reconciler twice in a row with no change
to the compiled artifacts, the mapping file, or the asset folders in between
(and the same copy-failure environment) persists the same final mapping
table after the second run as after the first, and the second run reports
the SAME number of synced files as the first (already-synced artifacts are
re-copied and counted again), not zero. -/
theorem c4_amended (fs : FS) (mfile : Option Str) (fail : CopyOracle) :
    (syncWebResources (syncWebResources fs mfile fail).fs
        (syncWebResources fs mfile fail).mappingFile fail).mappingFile =
      (syncWebResources fs mfile fail).mappingFile ∧
    (syncWebResources (syncWebResources fs mfile fail).fs
        (syncWebResources fs mfile fail).mappingFile fail).syncCount =
      (syncWebResources fs mfile fail).syncCount := by
  cases hd : fs.dist.isEmpty with
  | true =>
    rw [syncWebResources_empty mfile fail hd]
    dsimp only
    rw [syncWebResources_empty mfile fail hd]
    exact ⟨rfl, rfl⟩
  | false =>
    have hnd : (keysOf (loadMapping mfile).1).Nodup := loadMapping_nodup mfile
    rw [syncWebResources_run mfile fail hd]
    dsimp only
    have hd2 : (FS.mk fs.dist
        (syncLoop fail fs.dist fs.folders (loadMapping mfile).1).folders).dist.isEmpty
        = false := hd
    rw [syncWebResources_run _ fail hd2]
    dsimp only
    have hL1nodup : (keysOf
        (syncLoop fail fs.dist fs.folders (loadMapping mfile).1).mapping).Nodup := by
      rw [syncLoop_mapping fail fs.dist fs.folders _ hnd]
      exact nodup_filter hnd _
    rw [loadMapping_saveMapping _ hL1nodup]
    have hsh : shape (syncLoop fail fs.dist fs.folders (loadMapping mfile).1).folders
        = shape fs.folders := syncLoop_shape fail fs.dist fs.folders _
    have hmap1 : (syncLoop fail fs.dist fs.folders (loadMapping mfile).1).mapping =
        (loadMapping mfile).1.filter (keepB (distKeys fs.dist) fs.folders) :=
      syncLoop_mapping fail fs.dist fs.folders _ hnd
    have hmap2 : (syncLoop fail fs.dist
          (syncLoop fail fs.dist fs.folders (loadMapping mfile).1).folders
          (syncLoop fail fs.dist fs.folders (loadMapping mfile).1).mapping).mapping =
        (syncLoop fail fs.dist fs.folders (loadMapping mfile).1).mapping := by
      rw [syncLoop_mapping fail fs.dist _ _ hL1nodup]
      rw [List.filter_congr
        (fun kv _ => keepB_shape_congr hsh (distKeys fs.dist) kv)]
      conv_lhs => rw [hmap1, filter_filter']
      conv_rhs => rw [hmap1]
      exact List.filter_congr (fun kv _ => Bool.and_self _)
    have hcount2 : (syncLoop fail fs.dist
          (syncLoop fail fs.dist fs.folders (loadMapping mfile).1).folders
          (syncLoop fail fs.dist fs.folders (loadMapping mfile).1).mapping).count =
        (syncLoop fail fs.dist fs.folders (loadMapping mfile).1).count := by
      rw [syncLoop_count fail fs.dist _ _ hL1nodup]
      rw [List.filter_congr (fun x _ => countsB_shape_congr hsh _ fail x)]
      have hpt : ∀ x ∈ fs.dist,
          countsB (syncLoop fail fs.dist fs.folders (loadMapping mfile).1).mapping
            fs.folders fail x = countsB (loadMapping mfile).1 fs.folders fail x := by
        intro x hxm
        rw [hmap1]
        exact countsB_filter_keep hnd fail x
          (by simpa [distKeys] using List.mem_map_of_mem (fun s => tsKeyOf s.1) hxm)
      rw [List.filter_congr hpt, syncLoop_count fail fs.dist fs.folders _ hnd]
    exact ⟨by rw [hmap2], by rw [hcount2]⟩

/-! ### Claim C5: pruning a stale entry -/

/-- Claim C5: for a mapping entry `(k, d)` whose key matches a discovered
artifact and whose target folder does not exist, one reconciler run emits
exactly one pruning warning for that entry, attempts no copy for it, and
persists the table without that key (the persisted file loads back to the
pruned table). -/
theorem c5_pruning (fs : FS) (mfile : Option Str) (fail : CopyOracle)
    (k d : Str)
    (hlk : lookupKey (loadMapping mfile).1 k = some d)
    (hff : findFolder fs.folders d = none)
    (hmem : k ∈ distKeys fs.dist) :
    (syncWebResources fs mfile fail).events.countP (refsEntry k d) = 1 ∧
    (syncWebResources fs mfile fail).events.countP (isAttempt k) = 0 ∧
    ∃ m' : Entries,
      (syncWebResources fs mfile fail).mappingFile = some (saveMapping m') ∧
      k ∉ keysOf m' ∧
      (loadMapping (syncWebResources fs mfile fail).mappingFile).1 = m' := by
  have hd : fs.dist.isEmpty = false := by
    cases hfs : fs.dist with
    | nil => rw [hfs] at hmem; simp [distKeys] at hmem
    | cons a l => rfl
  rw [syncWebResources_run mfile fail hd]
  dsimp only
  have hnd := loadMapping_nodup mfile
  obtain ⟨h1, h2⟩ :=
    syncLoop_events_present fail k d fs.dist fs.folders _ hnd hlk hff hmem
  have hnd2 : (keysOf
      (syncLoop fail fs.dist fs.folders (loadMapping mfile).1).mapping).Nodup := by
    rw [syncLoop_mapping fail fs.dist fs.folders _ hnd]
    exact nodup_filter hnd _
  refine ⟨h1, h2,
    (syncLoop fail fs.dist fs.folders (loadMapping mfile).1).mapping, rfl, ?_, ?_⟩
  · rw [syncLoop_mapping fail fs.dist fs.folders _ hnd]
    intro hc
    simp only [keysOf, List.mem_map] at hc
    obtain ⟨kv, hkv, hfst⟩ := hc
    have hm : kv ∈ (loadMapping mfile).1 := List.mem_of_mem_filter hkv
    have hkeep : keepB (distKeys fs.dist) fs.folders kv = true :=
      List.of_mem_filter hkv
    have hv : kv.2 = d := by
      have h3 : lookupKey (loadMapping mfile).1 kv.1 = some kv.2 :=
        mem_lookupKey hnd (by simpa using hm)
      rw [hfst, hlk] at h3
      injection h3.symm
    rw [keepB, hfst, hv] at hkeep
    simp [hmem, hff] at hkeep
  · rw [loadMapping_saveMapping _ hnd2]

/-! ### Claim C8: per-file failure containment -/

/-- Claim C8: the reconciler loop emits exactly one per-artifact outcome
(one event per discovered artifact, so no copy failure ever aborts the
run); an iteration whose outcome is a caught copy failure changes neither
the folders nor the mapping and contributes nothing to the count; and the
loop over a concatenation is the sequential composition of the loops, so
effects of earlier iterations persist unchanged through later failures (no
rollback). -/
theorem c8_failure_semantics :
    (∀ (fail : CopyOracle) (dist : List (Str × Str)) (fl : List Folder)
        (m : Entries),
      (syncLoop fail dist fl m).events.length = dist.length) ∧
    (∀ (fail : CopyOracle) (fl : List Folder) (m : Entries) (src : Str × Str)
        (k d : Str),
      (syncStep fl m fail src).event = SyncEvent.copyFailed k d →
      (syncStep fl m fail src).folders = fl ∧
      (syncStep fl m fail src).mapping = m ∧
      (syncStep fl m fail src).add = 0) ∧
    (∀ (fail : CopyOracle) (l1 l2 : List (Str × Str)) (fl : List Folder)
        (m : Entries),
      syncLoop fail (l1 ++ l2) fl m =
        LoopResult.mk
          (syncLoop fail l2 (syncLoop fail l1 fl m).folders
            (syncLoop fail l1 fl m).mapping).folders
          (syncLoop fail l2 (syncLoop fail l1 fl m).folders
            (syncLoop fail l1 fl m).mapping).mapping
          ((syncLoop fail l1 fl m).count +
            (syncLoop fail l2 (syncLoop fail l1 fl m).folders
              (syncLoop fail l1 fl m).mapping).count)
          ((syncLoop fail l1 fl m).events ++
            (syncLoop fail l2 (syncLoop fail l1 fl m).folders
              (syncLoop fail l1 fl m).mapping).events)) := by
  refine ⟨?_, ?_, ?_⟩
  · intro fail dist
    induction dist with
    | nil => intro fl m; rw [syncLoop_nil]; rfl
    | cons src rest ih =>
      intro fl m
      rw [syncLoop_cons]
      dsimp only
      simp [ih]
  · intro fail fl m src k d h
    rcases hlk : lookupKey m (tsKeyOf src.1) with _ | dir
    · rw [syncStep_unmapped fl fail hlk] at h
      exact absurd h (by simp)
    · rcases hff : findFolder fl dir with _ | fo
      · rw [syncStep_dirMissing fl fail hlk hff] at h
        exact absurd h (by simp)
      · rcases hjs : jsFileNames fo with _ | ⟨t, ts⟩
        · rw [syncStep_found fl fail hlk hff, syncFile_noJs src fl m fail hjs] at h
          exact absurd h (by simp)
        · cases hf : fail src.1 fo.name t with
          | false =>
            rw [syncStep_found fl fail hlk hff,
              syncFile_ok src fl m fail hjs hf] at h
            exact absurd h (by simp)
          | true =>
            rw [syncStep_found fl fail hlk hff,
              syncFile_copyFailed src fl m fail hjs hf]
            exact ⟨rfl, rfl, rfl⟩
  · intro fail l1
    induction l1 with
    | nil =>
      intro l2 fl m
      rw [syncLoop_nil]
      simp
    | cons src l1' ih =>
      intro l2 fl m
      rw [List.cons_append, syncLoop_cons, ih, syncLoop_cons]
      dsimp only
      simp [Nat.add_assoc]

/-- Claim C8, witnessed: a failing copy for the mapped artifact `app.js`
leaves the folders and the mapping unchanged and adds nothing to the
count. -/
theorem c8_failure_semantics_witness :
    (syncStep [Folder.mk (str "folder-123") [(str "app.js", str "x")]]
        [(str "app.ts", str "folder-123")] (fun _ _ _ => true)
        (str "app.js", str "y")).folders =
      [Folder.mk (str "folder-123") [(str "app.js", str "x")]] ∧
    (syncStep [Folder.mk (str "folder-123") [(str "app.js", str "x")]]
        [(str "app.ts", str "folder-123")] (fun _ _ _ => true)
        (str "app.js", str "y")).mapping = [(str "app.ts", str "folder-123")] ∧
    (syncStep [Folder.mk (str "folder-123") [(str "app.js", str "x")]]
        [(str "app.ts", str "folder-123")] (fun _ _ _ => true)
        (str "app.js", str "y")).add = 0 :=
  c8_failure_semantics.2.1 (fun _ _ _ => true)
    [Folder.mk (str "folder-123") [(str "app.js", str "x")]]
    [(str "app.ts", str "folder-123")] (str "app.js", str "y")
    (str "app.ts") (str "folder-123") (by decide)

/-! ### Claim C9: the run only ever deletes mapping entries -/

/-- Claim C9: over a reconciler run the persisted table's keys are a subset
of the loaded table's keys, every surviving entry keeps its original value,
and an entry is removed exactly when its key matches a discovered artifact
while its mapped target folder does not exist. -/
theorem c9_mapping_monotone (fail : CopyOracle) (dist : List (Str × Str))
    (fl : List Folder) (m : Entries) (hnd : (keysOf m).Nodup) :
    (∀ k', k' ∈ keysOf (syncLoop fail dist fl m).mapping → k' ∈ keysOf m) ∧
    (∀ k' v', (k', v') ∈ (syncLoop fail dist fl m).mapping →
      lookupKey m k' = some v') ∧
    (∀ k' v', (k', v') ∈ m →
      ((k', v') ∈ (syncLoop fail dist fl m).mapping ↔
        ¬(k' ∈ distKeys dist ∧ findFolder fl v' = none))) := by
  have hmap := syncLoop_mapping fail dist fl m hnd
  refine ⟨?_, ?_, ?_⟩
  · intro k' hk'
    rw [hmap] at hk'
    simp only [keysOf, List.mem_map] at hk' ⊢
    obtain ⟨kv, hkv, he⟩ := hk'
    exact ⟨kv, List.mem_of_mem_filter hkv, he⟩
  · intro k' v' hkv
    rw [hmap] at hkv
    exact mem_lookupKey hnd (List.mem_of_mem_filter hkv)
  · intro k' v' hm
    rw [hmap]
    constructor
    · intro hin hc
      have hkeep := List.of_mem_filter hin
      rw [keepB] at hkeep
      simp [hc.1, hc.2] at hkeep
    · intro hnot
      refine List.mem_filter.mpr ⟨hm, ?_⟩
      rcases hf : findFolder fl v' with _ | fo
      · have hnmem : k' ∉ distKeys dist := fun hc => hnot ⟨hc, hf⟩
        simp [keepB, hnmem]
      · simp [keepB, hf]

/-- Claim C9, witnessed at a table with one live and one stale entry. -/
theorem c9_mapping_monotone_witness :
    (∀ k', k' ∈ keysOf (syncLoop noFailOracle
        [(str "widgetForm.js", str "compiled")]
        [Folder.mk (str "folder-123") [(str "widgetForm.js", str "deployed")]]
        [(str "widgetForm.ts", str "folder-123")]).mapping →
      k' ∈ keysOf [(str "widgetForm.ts", str "folder-123")]) ∧
    (∀ k' v', (k', v') ∈ (syncLoop noFailOracle
        [(str "widgetForm.js", str "compiled")]
        [Folder.mk (str "folder-123") [(str "widgetForm.js", str "deployed")]]
        [(str "widgetForm.ts", str "folder-123")]).mapping →
      lookupKey [(str "widgetForm.ts", str "folder-123")] k' = some v') ∧
    (∀ k' v', (k', v') ∈ [(str "widgetForm.ts", str "folder-123")] →
      ((k', v') ∈ (syncLoop noFailOracle
          [(str "widgetForm.js", str "compiled")]
          [Folder.mk (str "folder-123") [(str "widgetForm.js", str "deployed")]]
          [(str "widgetForm.ts", str "folder-123")]).mapping ↔
        ¬(k' ∈ distKeys [(str "widgetForm.js", str "compiled")] ∧
          findFolder [Folder.mk (str "folder-123")
            [(str "widgetForm.js", str "deployed")]] v' = none))) :=
  c9_mapping_monotone noFailOracle [(str "widgetForm.js", str "compiled")]
    [Folder.mk (str "folder-123") [(str "widgetForm.js", str "deployed")]]
    [(str "widgetForm.ts", str "folder-123")] (by decide)

/-! ### Claim C10: the frame of a single sync -/

theorem folder_eq_of_name {fl : List Folder} (hnd : (folderNames fl).Nodup)
    {a b : Folder} (ha : a ∈ fl) (hb : b ∈ fl) (he : a.name = b.name) :
    a = b :=
  List.inj_on_of_nodup_map (by simpa [folderNames] using hnd) ha hb he

/-- Claim C10: when the reconciler syncs an artifact into an existing target
folder that contains at least one `.js` file, it overwrites the content of
the FIRST such file only: folder names and file-name lists are unchanged
everywhere (nothing is created, deleted or renamed), folders other than the
target are untouched, files of the target other than the backing file keep
their contents, and on a successful copy the backing file holds the
artifact's content. -/
theorem c10_frame (fl : List Folder) (m : Entries) (fail : CopyOracle)
    (src : Str × Str) (dir : Str) (fo : Folder) (t : Str) (ts : List Str)
    (hnd : (folderNames fl).Nodup)
    (hlk : lookupKey m (tsKeyOf src.1) = some dir)
    (hff : findFolder fl dir = some fo)
    (hjs : jsFileNames fo = t :: ts) :
    shape (syncStep fl m fail src).folders = shape fl ∧
    (∀ fo2 ∈ fl, fo2.name ≠ dir → fo2 ∈ (syncStep fl m fail src).folders) ∧
    (∀ fo2 ∈ (syncStep fl m fail src).folders, fo2.name = dir →
      ∀ p ∈ fo.files, p.1 ≠ t → p ∈ fo2.files) ∧
    (fail src.1 dir t = false →
      ∀ fo2 ∈ (syncStep fl m fail src).folders, fo2.name = dir →
        (t, src.2) ∈ fo2.files) := by
  have hname : fo.name = dir := findFolder_name hff
  have hfo : fo ∈ fl := findFolder_mem hff
  rw [syncStep_found fl fail hlk hff]
  cases hf : fail src.1 fo.name t with
  | true =>
    rw [syncFile_copyFailed src fl m fail hjs hf]
    dsimp only
    refine ⟨rfl, fun fo2 h2 _ => h2, ?_, ?_⟩
    · intro fo2 h2 he p hp _
      have h3 : fo2 = fo := folder_eq_of_name hnd h2 hfo (by rw [he, hname])
      rw [h3]
      exact hp
    · intro hfalse
      rw [hname] at hf
      rw [hf] at hfalse
      exact absurd hfalse (by simp)
  | false =>
    rw [syncFile_ok src fl m fail hjs hf]
    dsimp only
    refine ⟨shape_updateFolder fl fo.name t src.2, ?_, ?_, ?_⟩
    · intro fo2 h2 hne
      refine List.mem_map.mpr ⟨fo2, h2, ?_⟩
      rw [if_neg (by rw [hname]; exact hne)]
    · intro fo2 h2 he p hp hpt
      obtain ⟨fo3, h3, himg⟩ := List.mem_map.mp h2
      by_cases hcase : fo3.name = fo.name
      · have h4 : fo3 = fo := folder_eq_of_name hnd h3 hfo hcase
        subst h4
        rw [if_pos rfl] at himg
        rw [← himg]
        exact List.mem_map.mpr ⟨p, hp, by rw [if_neg hpt]⟩
      · rw [if_neg hcase] at himg
        rw [← himg] at he
        exact absurd (he.trans hname.symm) hcase
    · intro _ fo2 h2 he
      obtain ⟨fo3, h3, himg⟩ := List.mem_map.mp h2
      by_cases hcase : fo3.name = fo.name
      · have h4 : fo3 = fo := folder_eq_of_name hnd h3 hfo hcase
        rw [h4, if_pos rfl] at himg
        rw [← himg]
        have ht : t ∈ fileNames fo := by
          have h5 : t ∈ jsFileNames fo := by
            rw [hjs]
            exact List.mem_cons_self _ _
          exact List.mem_of_mem_filter h5
        obtain ⟨p0, hp0, hp0t⟩ := List.mem_map.mp ht
        exact List.mem_map.mpr ⟨p0, hp0, by rw [if_pos hp0t]⟩
      · rw [if_neg hcase] at himg
        rw [← himg] at he
        exact absurd (he.trans hname.symm) hcase

/-- Claim C10, witnessed on a folder with one `.js` file and one other
file. -/
theorem c10_frame_witness :
    shape (syncStep
        [Folder.mk (str "folder-123")
          [(str "app.js", str "old"), (str "readme.txt", str "doc")]]
        [(str "app.ts", str "folder-123")] noFailOracle
        (str "app.js", str "new")).folders =
      shape [Folder.mk (str "folder-123")
        [(str "app.js", str "old"), (str "readme.txt", str "doc")]] ∧
    (∀ fo2 ∈ [Folder.mk (str "folder-123")
        [(str "app.js", str "old"), (str "readme.txt", str "doc")]],
      fo2.name ≠ str "folder-123" →
      fo2 ∈ (syncStep
        [Folder.mk (str "folder-123")
          [(str "app.js", str "old"), (str "readme.txt", str "doc")]]
        [(str "app.ts", str "folder-123")] noFailOracle
        (str "app.js", str "new")).folders) ∧
    (∀ fo2 ∈ (syncStep
        [Folder.mk (str "folder-123")
          [(str "app.js", str "old"), (str "readme.txt", str "doc")]]
        [(str "app.ts", str "folder-123")] noFailOracle
        (str "app.js", str "new")).folders, fo2.name = str "folder-123" →
      ∀ p ∈ (Folder.mk (str "folder-123")
        [(str "app.js", str "old"), (str "readme.txt", str "doc")]).files,
        p.1 ≠ str "app.js" → p ∈ fo2.files) ∧
    (noFailOracle (str "app.js", str "new").1 (str "folder-123") (str "app.js")
        = false →
      ∀ fo2 ∈ (syncStep
        [Folder.mk (str "folder-123")
          [(str "app.js", str "old"), (str "readme.txt", str "doc")]]
        [(str "app.ts", str "folder-123")] noFailOracle
        (str "app.js", str "new")).folders, fo2.name = str "folder-123" →
        (str "app.js", (str "app.js", str "new").2) ∈ fo2.files) :=
  c10_frame
    [Folder.mk (str "folder-123")
      [(str "app.js", str "old"), (str "readme.txt", str "doc")]]
    [(str "app.ts", str "folder-123")] noFailOracle (str "app.js", str "new")
    (str "folder-123")
    (Folder.mk (str "folder-123")
      [(str "app.js", str "old"), (str "readme.txt", str "doc")])
    (str "app.js") [] (by decide) (by decide) (by decide) (by decide)

/-- Claim C5, witnessed: one artifact whose entry points at the absent
folder `folder-999`. -/
theorem c5_pruning_witness :
    (syncWebResources (FS.mk [(str "widgetForm.js", str "compiled")] [])
        (some (saveMapping [(str "widgetForm.ts", str "folder-999")]))
        noFailOracle).events.countP
      (refsEntry (str "widgetForm.ts") (str "folder-999")) = 1 ∧
    (syncWebResources (FS.mk [(str "widgetForm.js", str "compiled")] [])
        (some (saveMapping [(str "widgetForm.ts", str "folder-999")]))
        noFailOracle).events.countP (isAttempt (str "widgetForm.ts")) = 0 ∧
    ∃ m' : Entries,
      (syncWebResources (FS.mk [(str "widgetForm.js", str "compiled")] [])
          (some (saveMapping [(str "widgetForm.ts", str "folder-999")]))
          noFailOracle).mappingFile = some (saveMapping m') ∧
      str "widgetForm.ts" ∉ keysOf m' ∧
      (loadMapping (syncWebResources
          (FS.mk [(str "widgetForm.js", str "compiled")] [])
          (some (saveMapping [(str "widgetForm.ts", str "folder-999")]))
          noFailOracle).mappingFile).1 = m' :=
  c5_pruning (FS.mk [(str "widgetForm.js", str "compiled")] [])
    (some (saveMapping [(str "widgetForm.ts", str "folder-999")]))
    noFailOracle (str "widgetForm.ts") (str "folder-999")
    (by decide) (by decide) (by decide)

end PPJC
